import Mathlib

/-!
Verification of the mediaVault CSV/JSON ingestion pipeline.

The definitions below are a shallow embedding of the ingestion code in the
Express/PostgreSQL server (`insertBatchIntoStaging`, `mungeRaw`,
`parseArrayish`, the `import_media_csv` PL/pgSQL merge function, and the
`/api/import/csv` orchestration handler), together with the transaction
semantics of the relational store they run against.
-/

set_option maxRecDepth 10000

namespace MediaVault

/-! ## JSON-like values

`JVal` models the JavaScript/JSONB values flowing through the pipeline.
Numbers are modelled as integers: no claim exercises fractional JSON
numbers, and the pipeline only ever stringifies them. -/

inductive JVal where
  | null
  | bool (b : Bool)
  | num (n : Int)
  | str (s : String)
  | arr (elems : List JVal)
  | obj (fields : List (String × JVal))

/-- Characters that are awkward to write literally under the project style. -/
def lbraceChar : Char := Char.ofNat 123
def rbraceChar : Char := Char.ofNat 125
def quoteChar : Char := Char.ofNat 34
def aposChar : Char := Char.ofNat 39

def isWsChar (c : Char) : Bool := c = ' ' || c = '\t' || c = '\n' || c = '\r'

def skipWs (l : List Char) : List Char := l.dropWhile isWsChar

def isDigitChar (c : Char) : Bool := '0' ≤ c && c ≤ '9'

/-- Trim whitespace from both ends (JS `trim`, Postgres input trimming). -/
def listTrim (l : List Char) : List Char :=
  ((l.dropWhile isWsChar).reverse.dropWhile isWsChar).reverse

def strTrim (s : String) : String := String.mk (listTrim s.toList)

/-- Split on commas, `splitOn ","` semantics (the empty list is `[[]]`). -/
def splitComma : List Char → List (List Char)
  | [] => [[]]
  | c :: rest =>
    if c = ',' then [] :: splitComma rest
    else
      match splitComma rest with
      | g :: gs => (c :: g) :: gs
      | [] => [[c]]

def strSplitComma (s : String) : List String :=
  (splitComma s.toList).map String.mk

/-- `intercalate ","`. -/
def joinComma : List String → String
  | [] => ""
  | [x] => x
  | x :: xs => x ++ "," ++ joinComma xs

/-- Digits of a string, as a natural number (for `Number(...)` on `\d+`). -/
def digitsToNat (l : List Char) : Nat :=
  l.foldl (fun acc c => acc * 10 + (c.toNat - '0'.toNat)) 0

/-! ## A small strict JSON parser

Models `JSON.parse` (and the Postgres `::jsonb` cast) on the value shapes
the pipeline uses: strings (with the common escapes), integer numbers,
booleans, null, arrays and objects.  It fails (returns `none`) on anything
else, in particular on the malformed inputs the claims exercise
(`"US,CA"`, `"[US] [CA]"`). -/

def parseStringBody (fuel : Nat) (l : List Char) (acc : List Char) :
    Option (String × List Char) :=
  match fuel, l with
  | 0, _ => none
  | _, [] => none
  | Nat.succ fuel, c :: rest =>
    if c = quoteChar then some (String.mk acc.reverse, rest)
    else if c = '\\' then
      match rest with
      | [] => none
      | e :: rest' =>
        if e = quoteChar then parseStringBody fuel rest' (quoteChar :: acc)
        else if e = '\\' then parseStringBody fuel rest' ('\\' :: acc)
        else if e = '/' then parseStringBody fuel rest' ('/' :: acc)
        else if e = 'n' then parseStringBody fuel rest' ('\n' :: acc)
        else if e = 't' then parseStringBody fuel rest' ('\t' :: acc)
        else if e = 'r' then parseStringBody fuel rest' ('\r' :: acc)
        else none
    else parseStringBody fuel rest (c :: acc)

/-- Parse a JSON integer literal (sign and digits, JSON leading-zero rule). -/
def parseNumLit (l : List Char) : Option (Int × List Char) :=
  let (neg, l1) := match l with
    | c :: rest => if c = '-' then (true, rest) else (false, l)
    | [] => (false, l)
  let digs := l1.takeWhile isDigitChar
  let rest := l1.dropWhile isDigitChar
  if digs.isEmpty then none
  else if digs.length > 1 && digs.headI = '0' then none
  else
    -- fractional parts and exponents are outside the model
    match rest with
    | c :: _ => if c = '.' || c = 'e' || c = 'E' then none
        else some (if neg then -(digitsToNat digs : Int) else (digitsToNat digs : Int), rest)
    | [] => some (if neg then -(digitsToNat digs : Int) else (digitsToNat digs : Int), rest)

mutual

def parseVal (fuel : Nat) (l0 : List Char) : Option (JVal × List Char) :=
  match fuel with
  | 0 => none
  | Nat.succ fuel =>
    match skipWs l0 with
    | [] => none
    | c :: rest =>
      if c = quoteChar then
        (parseStringBody fuel rest []).map (fun p => (JVal.str p.1, p.2))
      else if c = '[' then
        match skipWs rest with
        | ']' :: rest' => some (JVal.arr [], rest')
        | l' => (parseArrItems fuel l').map (fun p => (JVal.arr p.1, p.2))
      else if c = lbraceChar then
        match skipWs rest with
        | d :: rest' =>
          if d = rbraceChar then some (JVal.obj [], rest')
          else (parseObjItems fuel (d :: rest')).map (fun p => (JVal.obj p.1, p.2))
        | [] => none
      else if c = 't' then
        match rest with
        | 'r' :: 'u' :: 'e' :: rest' => some (JVal.bool true, rest')
        | _ => none
      else if c = 'f' then
        match rest with
        | 'a' :: 'l' :: 's' :: 'e' :: rest' => some (JVal.bool false, rest')
        | _ => none
      else if c = 'n' then
        match rest with
        | 'u' :: 'l' :: 'l' :: rest' => some (JVal.null, rest')
        | _ => none
      else
        (parseNumLit (c :: rest)).map (fun p => (JVal.num p.1, p.2))

def parseArrItems (fuel : Nat) (l : List Char) : Option (List JVal × List Char) :=
  match fuel with
  | 0 => none
  | Nat.succ fuel =>
    match parseVal fuel l with
    | none => none
    | some (v, rest) =>
      match skipWs rest with
      | ',' :: rest' =>
        (parseArrItems fuel rest').map (fun p => (v :: p.1, p.2))
      | ']' :: rest' => some ([v], rest')
      | _ => none

def parseObjItems (fuel : Nat) (l : List Char) :
    Option (List (String × JVal) × List Char) :=
  match fuel with
  | 0 => none
  | Nat.succ fuel =>
    match skipWs l with
    | c :: rest =>
      if c = quoteChar then
        match parseStringBody fuel rest [] with
        | none => none
        | some (k, rest') =>
          match skipWs rest' with
          | ':' :: rest2 =>
            match parseVal fuel rest2 with
            | none => none
            | some (v, rest3) =>
              match skipWs rest3 with
              | ',' :: rest4 =>
                (parseObjItems fuel rest4).map (fun p => ((k, v) :: p.1, p.2))
              | d :: rest4 =>
                if d = rbraceChar then some ([(k, v)], rest4) else none
              | [] => none
          | _ => none
      else none
    | [] => none

end

/-- Strict JSON parse of a whole string: trailing garbage is a failure. -/
def jsonParse (s : String) : Option JVal :=
  match parseVal (s.length * 2 + 8) s.toList with
  | some (v, rest) => if (skipWs rest).isEmpty then some v else none
  | none => none

end MediaVault

namespace MediaVault

/-! ## JavaScript value coercions -/

mutual

/-- JS `String(v)` (used by `parseArrayish` on JSON-array elements and on
non-string cells).  Arrays join their elements with `,` with `null`
rendered empty; objects render as `[object Object]`. -/
def jsToString : JVal → String
  | .null => "null"
  | .bool b => if b then "true" else "false"
  | .num n => toString n
  | .str s => s
  | .arr xs => joinComma (jsArrElemStrs xs)
  | .obj _ => "[object Object]"

/-- Element strings of a JS array for `Array.prototype.toString`. -/
def jsArrElemStrs : List JVal → List String
  | [] => []
  | x :: xs =>
    (match x with
     | .null => ""
     | v => jsToString v) :: jsArrElemStrs xs

end

/-! ## The `parseArrayish` cell normalizer

Embeds the JS `parseArrayish` helper of `insertBatchIntoStaging`: try a
JSON-array parse, otherwise collapse concatenated-array artifacts, strip
wrapping brackets and quotes, normalize alternate delimiters, collapse
whitespace, split, trim, and drop empties.  The regex replacements are
implemented as single left-to-right scans, which is what the JS global
regexes perform. -/

/-- After a `]`, does `\s*\[` follow?  Returns the suffix past the `[`. -/
def afterWsOpen : List Char → Option (List Char)
  | [] => none
  | c :: rest =>
    if c = '[' then some rest
    else if isWsChar c then afterWsOpen rest
    else none

/-- `.replace(/\]\s*\[/g, ',')` — concatenated-array artifact collapse. -/
def collapseConcat : Nat → List Char → List Char
  | 0, l => l
  | Nat.succ _, [] => []
  | Nat.succ fuel, c :: rest =>
    if c = ']' then
      match afterWsOpen rest with
      | some rest' => ',' :: collapseConcat fuel rest'
      | none => ']' :: collapseConcat fuel rest
    else c :: collapseConcat fuel rest

def isOpenBr (c : Char) : Bool := c = '[' || c = '(' || c = lbraceChar
def isCloseBr (c : Char) : Bool := c = ']' || c = ')' || c = rbraceChar

/-- `.replace(/^[\[\(\{]+|[\]\)\}]+$/g, '')` — strip one leading run of
opening brackets and one trailing run of closing brackets. -/
def stripOuterBrackets (l : List Char) : List Char :=
  ((l.dropWhile isOpenBr).reverse.dropWhile isCloseBr).reverse

def isAltSep (c : Char) : Bool := c = ';' || c = '|' || c = '/'

/-- `.replace(/[;|\/]+/g, ',')` — alternate delimiter runs become commas. -/
def collapseSeps : Nat → List Char → List Char
  | 0, l => l
  | Nat.succ _, [] => []
  | Nat.succ fuel, c :: rest =>
    if isAltSep c then ',' :: collapseSeps fuel (rest.dropWhile isAltSep)
    else c :: collapseSeps fuel rest

/-- Consume `\s*,` and return the rest (helper for the comma-space scan). -/
def wsThenComma : List Char → Option (List Char)
  | [] => none
  | c :: rest =>
    if c = ',' then some rest
    else if isWsChar c then wsThenComma rest
    else none

/-- `.replace(/\s*,\s*/g, ',')` — trim whitespace around commas. -/
def collapseCommaWs : Nat → List Char → List Char
  | 0, l => l
  | Nat.succ _, [] => []
  | Nat.succ fuel, c :: rest =>
    if c = ',' then ',' :: collapseCommaWs fuel (rest.dropWhile isWsChar)
    else if isWsChar c then
      match wsThenComma (c :: rest) with
      | some rest' => ',' :: collapseCommaWs fuel (rest'.dropWhile isWsChar)
      | none => c :: collapseCommaWs fuel rest
    else c :: collapseCommaWs fuel rest

/-- `.replace(/\s+/g, ' ')` — collapse whitespace runs to single spaces. -/
def collapseWsRuns : Nat → List Char → List Char
  | 0, l => l
  | Nat.succ _, [] => []
  | Nat.succ fuel, c :: rest =>
    if isWsChar c then ' ' :: collapseWsRuns fuel (rest.dropWhile isWsChar)
    else c :: collapseWsRuns fuel rest

/-- The `parseArrayish` cell normalizer.  `none` models both JS `null` and
`undefined` in argument and result (`v == null` matches both). -/
def parseArrayish (v : Option JVal) : Option String :=
  match v with
  | none => none
  | some (JVal.null) => none
  | some jv =>
    let s := match jv with
      | JVal.str t => strTrim t
      | other => jsToString other
    if s = "" then none
    else
      match jsonParse s with
      | some (JVal.arr xs) =>
        some (joinComma
          ((xs.map (fun x => strTrim (jsToString x))).filter (fun t => !(t = ""))))
      | _ =>
        let cs0 := s.toList
        let cs1 := collapseConcat cs0.length cs0
        let cs2 := stripOuterBrackets cs1
        let cs3 := cs2.filter (fun c => !(c = quoteChar || c = aposChar))
        let cs4 := collapseSeps cs3.length cs3
        let cs5 := collapseCommaWs cs4.length cs4
        let cs6 := collapseWsRuns cs5.length cs5
        let parts := ((strSplitComma (String.mk cs6)).map strTrim).filter
          (fun t => !(t = ""))
        if parts.isEmpty then none else some (joinComma parts)

end MediaVault

namespace MediaVault

/-! ## Flat input records and JS object semantics

An input record (one CSV row after header mapping, or one JSON item) is an
ordered string-keyed map.  `objSet` is JS property assignment on such a
map: overwrite in place, or append a new key. -/

abbrev Record := List (String × JVal)

def lookupKey (r : Record) (k : String) : Option JVal :=
  (r.find? (fun p => p.1 = k)).map (fun p => p.2)

/-- JS nullish access `r.k ?? ...`: an absent key and an explicit `null`
both fall through to the next alternative, so both become `none`. -/
def getVal (r : Record) (k : String) : Option JVal :=
  match lookupKey r k with
  | some (JVal.null) => none
  | v => v

/-- JS property assignment on an ordered map. -/
def objSet (r : Record) (k : String) (v : JVal) : Record :=
  if r.any (fun p => p.1 = k) then
    r.map (fun p => if p.1 = k then (k, v) else p)
  else r ++ [(k, v)]

/-- JS truthiness of a value. -/
def truthy : JVal → Bool
  | .null => false
  | .bool b => b
  | .num n => !(n = 0)
  | .str s => !(s = "")
  | .arr _ => true
  | .obj _ => true

/-- `typeof v === 'object'` for a non-nullish JS value (arrays included). -/
def isObjLike : JVal → Bool
  | .arr _ => true
  | .obj _ => true
  | .null => true
  | _ => false

/-- node-pg serialization of a record value bound to a staging TEXT column.
Strings pass through and numbers/booleans stringify; the array/object
cases reuse the JS rendering as an approximation (no claim stores a
non-scalar in a first-class staging column). -/
def asText : JVal → String
  | .str s => s
  | .num n => toString n
  | .bool b => if b then "true" else "false"
  | .null => "null"
  | .arr xs => jsToString (JVal.arr xs)
  | .obj fs => jsToString (JVal.obj fs)

def getText (r : Record) (k : String) : Option String :=
  (getVal r k).map asText

/-! ## The `mungeRaw` row reshaper

Embeds `mungeRaw`: classify each key of the input record as an
array-indexed path (`content[0].url`), a vendor-namespaced key
(`cbs$SeriesTitle`), or a plain key; assemble groups; fold groups into the
residual object; pass pre-nested structures through. -/

/-- Sparse JS array of objects, keyed by numeric index. -/
abbrev IdxGroup := List (Nat × Record)

/-- `arr[idx] = arr[idx] || {}; arr[idx][fld] = v`. -/
def groupSet (g : IdxGroup) (idx : Nat) (fld : String) (v : JVal) : IdxGroup :=
  if g.any (fun p => p.1 = idx) then
    g.map (fun p => if p.1 = idx then (idx, objSet p.2 fld v) else p)
  else g ++ [(idx, objSet [] fld v)]

def groupMaxIdx (g : IdxGroup) : Nat :=
  g.foldl (fun m p => max m p.1) 0

/-- A sparse JS array as a JSON value: indices `0..max` in order, holes
becoming `null` (what `JSON.stringify` does to holes). -/
def assembleGroup (g : IdxGroup) : JVal :=
  JVal.arr ((List.range (groupMaxIdx g + 1)).map (fun i =>
    match g.find? (fun p => p.1 = i) with
    | some p => JVal.obj p.2
    | none => JVal.null))

/-- `p.toList` starts the other list (JS `String.prototype.startsWith`). -/
def listStarts : List Char → List Char → Bool
  | [], _ => true
  | _ :: _, [] => false
  | p :: ps, c :: cs => p = c && listStarts ps cs

/-- JS `s.startsWith(p)`. -/
def strStarts (s p : String) : Bool := listStarts p.toList s.toList

/-- JS `s.slice(n)`. -/
def strDrop (s : String) (n : Nat) : String := String.mk (s.toList.drop n)

/-- The regex `^name\[(\d+)\]\.(.+)$`: index digits and a nonempty
sub-field name.  (`.` is modelled as any character.) -/
def matchIndexedPath (name : String) (k : String) : Option (Nat × String) :=
  if strStarts k (name ++ "[") then
    let rest := k.toList.drop (name.length + 1)
    let digs := rest.takeWhile isDigitChar
    let rest2 := rest.dropWhile isDigitChar
    if digs.isEmpty then none
    else
      match rest2 with
      | ']' :: '.' :: fld =>
        if fld.isEmpty then none else some (digitsToNat digs, String.mk fld)
      | _ => none
  else none

structure MungeState where
  raw : Record
  contentArr : IdxGroup
  thumbsArr : IdxGroup
  cbs : Record
  ytcp : Record
  yt : Record
  msn : Record
  pl2 : Record

def mungeInit : MungeState := ⟨[], [], [], [], [], [], [], []⟩

/-- One key of the classification loop of `mungeRaw`.  Note that a key
starting with `content[` or `thumbnails[` that fails the full indexed-path
regex hits the `continue` and is dropped entirely. -/
def mungeStep (st : MungeState) (kv : String × JVal) : MungeState :=
  let k := kv.1
  let v := kv.2
  if strStarts k "content[" then
    match matchIndexedPath "content" k with
    | some p => { st with contentArr := groupSet st.contentArr p.1 p.2 v }
    | none => st
  else if strStarts k "thumbnails[" then
    match matchIndexedPath "thumbnails" k with
    | some p => { st with thumbsArr := groupSet st.thumbsArr p.1 p.2 v }
    | none => st
  else if strStarts k "cbs$" then { st with cbs := objSet st.cbs (strDrop k 4) v }
  else if strStarts k "ytcp$" then { st with ytcp := objSet st.ytcp (strDrop k 5) v }
  else if strStarts k "yt$" then { st with yt := objSet st.yt (strDrop k 3) v }
  else if strStarts k "msn$" then { st with msn := objSet st.msn (strDrop k 4) v }
  else if strStarts k "pl2$" then { st with pl2 := objSet st.pl2 (strDrop k 4) v }
  else { st with raw := objSet st.raw k v }

/-- `if (!raw.k && Array.isArray(r.k)) raw.k = r.k`. -/
def passThroughArr (raw : Record) (r : Record) (k : String) : Record :=
  let falsy := match lookupKey raw k with
    | none => true
    | some v => !truthy v
  if falsy then
    match lookupKey r k with
    | some (JVal.arr xs) => objSet raw k (JVal.arr xs)
    | _ => raw
  else raw

/-- `if (!raw.k && r.k && typeof r.k === 'object') raw.k = r.k`. -/
def passThroughObj (raw : Record) (r : Record) (k : String) : Record :=
  let falsy := match lookupKey raw k with
    | none => true
    | some v => !truthy v
  if falsy then
    match lookupKey r k with
    | some v => if truthy v && isObjLike v then objSet raw k v else raw
    | none => raw
  else raw

def mungeFinalize (r : Record) (st : MungeState) : Record :=
  let raw := st.raw
  let raw := if st.contentArr.isEmpty then raw
    else objSet raw "content" (assembleGroup st.contentArr)
  let raw := if st.thumbsArr.isEmpty then raw
    else objSet raw "thumbnails" (assembleGroup st.thumbsArr)
  let raw := if st.cbs.isEmpty then raw else objSet raw "cbs" (JVal.obj st.cbs)
  let raw := if st.ytcp.isEmpty then raw else objSet raw "ytcp" (JVal.obj st.ytcp)
  let raw := if st.yt.isEmpty then raw else objSet raw "yt" (JVal.obj st.yt)
  let raw := if st.msn.isEmpty then raw else objSet raw "msn" (JVal.obj st.msn)
  let raw := if st.pl2.isEmpty then raw else objSet raw "pl2" (JVal.obj st.pl2)
  let raw := passThroughArr raw r "content"
  let raw := passThroughArr raw r "thumbnails"
  let raw := passThroughObj raw r "cbs"
  let raw := passThroughObj raw r "ytcp"
  let raw := passThroughObj raw r "yt"
  let raw := passThroughObj raw r "msn"
  let raw := passThroughObj raw r "pl2"
  raw

/-- The residual structured document built by `mungeRaw`. -/
def mungeRaw (r : Record) : Record :=
  mungeFinalize r (r.foldl mungeStep mungeInit)

end MediaVault

namespace MediaVault

/-! ## Staging records

`StagRow` is one row of `media_items_staging`: all first-class columns are
TEXT (hence `Option String`), plus the JSONB residual document `raw_row`.
`toStagRow` is the per-row record construction of
`insertBatchIntoStaging`, with its `??` precedence chains. -/

structure StagRow where
  id : Option String
  guid : Option String
  title : Option String
  series_title : Option String
  season_number : Option String
  episode_number : Option String
  content_type : Option String
  availabilityState : Option String
  countries : Option String
  premium_features : Option String
  updated : Option String
  added : Option String
  provider : Option String
  description : Option String
  availableDate : Option String
  expirationDate : Option String
  ratings : Option String
  pubDate : Option String
  primary_category_name : Option String
  primary_category_id : Option String
  source_partner : Option String
  video_id : Option String
  youtube_video_ids : Option String
  raw_row : Record

/-- The staging record built from one input record (the body of the
`for (const r of rows)` loop of `insertBatchIntoStaging`).  `raw_row` is
`JSON.stringify(mungeRaw(r))` stored into JSONB, modelled as the residual
record itself (the stringify/parse round trip is the identity here). -/
def toStagRow (r : Record) : StagRow where
  id := getText r "id"
  guid := getText r "guid"
  title := getText r "title"
  series_title := getText r "cbs$SeriesTitle" <|> getText r "series_title"
  season_number := getText r "cbs$SeasonNumber" <|> getText r "season_number"
  episode_number := getText r "cbs$EpisodeNumber" <|> getText r "episode_number"
  content_type := getText r "cbs$contentType" <|> getText r "content_type"
  availabilityState := getText r "availabilityState"
  countries := parseArrayish (lookupKey r "countries")
  premium_features :=
    parseArrayish (getVal r "cbs$premiumFeatures" <|> lookupKey r "premium_features")
  updated := getText r "updated"
  added := getText r "added"
  provider := getText r "provider"
  description := getText r "description"
  availableDate := getText r "availableDate"
  expirationDate := getText r "expirationDate"
  ratings := getText r "ratings"
  pubDate := getText r "pubDate"
  primary_category_name := getText r "cbs$PrimaryCategoryName"
  primary_category_id := getText r "cbs$PrimaryCategory"
  source_partner := getText r "cbs$SourcePartner"
  video_id := getText r "cbs$VideoID"
  youtube_video_ids := getText r "ytcp$youTubeVideoIds"
  raw_row := mungeRaw r

/-! ## Field conversions of the `import_media_csv` merge -/

/-- `s ~ '^\d+$'`. -/
def matchesDigits (s : String) : Bool :=
  !s.toList.isEmpty && s.toList.all isDigitChar

/-- Postgres `bigint` (int8) maximum: `::bigint` raises above it. -/
def int8Max : Int := 9223372036854775807

/-- `BEGIN v := CASE WHEN rec.x ~ '^\d+$' THEN rec.x::bigint ELSE NULL END;
EXCEPTION WHEN others THEN v := NULL; END` (a NULL column makes the regex
test NULL, hence the ELSE branch; a digit string beyond the int8 range
makes the cast raise, and the EXCEPTION handler turns that into NULL). -/
def parseMillis : Option String → Option Int
  | none => none
  | some s =>
    if matchesDigits s then
      if (digitsToNat s.toList : Int) ≤ int8Max then
        some (digitsToNat s.toList : Int)
      else none
    else none

/-- `s ~ '^\d+(\.\d+)?$'`. -/
def matchesNumPattern (s : String) : Bool :=
  let l := s.toList
  let digs := l.takeWhile isDigitChar
  let rest := l.dropWhile isDigitChar
  !digs.isEmpty &&
    (rest.isEmpty ||
      (match rest with
       | '.' :: frac => !frac.isEmpty && frac.all isDigitChar
       | _ => false))

/-- Postgres `::NUMERIC::INTEGER` on a string matching the pattern above:
round half away from zero, decided by the first fractional digit. -/
def numericToInt (s : String) : Int :=
  let l := s.toList
  let digs := l.takeWhile isDigitChar
  let rest := l.dropWhile isDigitChar
  let ip : Int := (digitsToNat digs : Int)
  match rest with
  | '.' :: f :: _ => if '5' ≤ f then ip + 1 else ip
  | _ => ip

/-- Postgres `integer` (int4) maximum: `::NUMERIC::INTEGER` raises
`integer out of range` when the rounded value exceeds it. -/
def int4Max : Int := 2147483647

/-- The season/episode CASE of the merge,
`CASE WHEN rec.x ~ '^\d+(\.\d+)?$' THEN rec.x::NUMERIC::INTEGER ELSE NULL END`:
NULL when the column is NULL or fails the pattern, the rounded value when
it fits `integer`, and — this CASE is the one conversion in
`import_media_csv` that sits in no BEGIN/EXCEPTION block — an uncaught
`integer out of range` error when the rounded value exceeds the int4
maximum, which aborts the whole merge call. -/
def parseIntFieldE : Option String → Except Unit (Option Int)
  | none => Except.ok none
  | some s =>
    if matchesNumPattern s then
      if numericToInt s ≤ int4Max then Except.ok (some (numericToInt s))
      else Except.error ()
    else Except.ok none

/-- The value of the cast where it does not raise (`none` on the raising
inputs, on which `importMediaCsvE` aborts before any value is used). -/
def parseIntField (v : Option String) : Option Int :=
  match parseIntFieldE v with
  | Except.ok r => r
  | Except.error _ => none

/-- A Postgres timestamp value. -/
structure PgTimestamp where
  year : Nat
  month : Nat
  day : Nat
  hour : Nat
  minute : Nat
  second : Nat
deriving DecidableEq, Repr

/-- Modelled from the Postgres `::timestamp` input conversion, restricted
to ISO-8601 `YYYY-MM-DD[ HH:MM:SS[.frac]]` (date/time separated by a space
or `T`); other accepted Postgres spellings are outside the model and map
to `none`, which the merge turns into NULL via its exception handler. -/
def pgParseTimestamp (s : String) : Option PgTimestamp :=
  let l := listTrim s.toList
  let d4 := l.takeWhile isDigitChar
  if d4.length = 4 then
    match l.drop 4 with
    | '-' :: m1 :: m2 :: '-' :: d1 :: d2 :: rest =>
      if [m1, m2, d1, d2].all isDigitChar then
        let y := digitsToNat d4
        let mo := digitsToNat [m1, m2]
        let dy := digitsToNat [d1, d2]
        if 1 ≤ mo && mo ≤ 12 && 1 ≤ dy && dy ≤ 31 then
          match rest with
          | [] => some ⟨y, mo, dy, 0, 0, 0⟩
          | sep :: h1 :: h2 :: ':' :: i1 :: i2 :: ':' :: s1 :: s2 :: rest2 =>
            if (sep = ' ' || sep = 'T') && [h1, h2, i1, i2, s1, s2].all isDigitChar
                && (rest2.isEmpty ||
                    (rest2.headI = '.' && !(rest2.drop 1).isEmpty
                      && (rest2.drop 1).all isDigitChar)) then
              let h := digitsToNat [h1, h2]
              let mi := digitsToNat [i1, i2]
              let se := digitsToNat [s1, s2]
              if h ≤ 23 && mi ≤ 59 && se ≤ 59 then some ⟨y, mo, dy, h, mi, se⟩
              else none
            else none
          | _ => none
        else none
      else none
    | _ => none
  else none

/-- `BEGIN v := NULLIF(rec.x,'')::timestamp; EXCEPTION ... v := NULL;`. -/
def parseTsField : Option String → Option PgTimestamp
  | none => none
  | some s => if s = "" then none else pgParseTimestamp s

/-- `s ~ '^\s*\[' `-style tests: first non-whitespace character is `c`. -/
def startsWithWsThen (c : Char) (s : String) : Bool :=
  match skipWs s.toList with
  | d :: _ => d = c
  | [] => false

/-- Postgres `string_to_array(s, ',')` (no trimming of elements). -/
def stringToArray (s : String) : List String := strSplitComma s

/-- Compact text of a jsonb value (`::text`), used for non-scalar elements
of `jsonb_array_elements_text`/`jsonb_each_text`.  String escaping inside
nested values is elided: no claim renders a nested value. -/
def renderJsonb : JVal → String
  | .null => "null"
  | .bool b => if b then "true" else "false"
  | .num n => toString n
  | .str s => String.mk (quoteChar :: (s.toList ++ [quoteChar]))
  | .arr _ => "[...]"
  | .obj _ => String.mk (lbraceChar :: ('.' :: '.' :: '.' :: [rbraceChar]))

/-- The text `jsonb_array_elements_text`/`jsonb_each_text` produce for one
element: strings unquoted, scalars as literals.  A `null` element would be
a SQL NULL inside the array; it is rendered as `"null"` here (no claim
produces a null element). -/
def jsonbElemText : JVal → String
  | .str t => t
  | .num n => toString n
  | .bool b => if b then "true" else "false"
  | .null => "null"
  | v => renderJsonb v

/-- The countries/premium-features CASE of the merge, with its exception
handler: a `[`-leading cell is parsed as a jsonb string array (falling
back to a comma split if the cast or the element extraction raises); a
NULL or empty cell is NULL; anything else is comma-split.  An empty jsonb
array yields NULL because `array_agg` over zero rows is NULL. -/
def mergeCountries : Option String → Option (List String)
  | none => none
  | some s =>
    if startsWithWsThen '[' s then
      match jsonParse s with
      | some (JVal.arr xs) =>
        if xs.isEmpty then none else some (xs.map jsonbElemText)
      | _ => some (stringToArray s)
    else if s = "" then none
    else some (stringToArray s)

/-- `v_ratings := NULLIF(rec.ratings, '')::jsonb` with exception → NULL. -/
def mergeRatings : Option String → Option JVal
  | none => none
  | some s => if s = "" then none else jsonParse s

/-- jsonb object key order: ascending key length, then bytewise. -/
def jsonbKeyLt (a b : String) : Bool :=
  Nat.blt a.length b.length || (a.length = b.length && a < b)

def insertByKey (x : String × JVal) : List (String × JVal) → List (String × JVal)
  | [] => [x]
  | y :: ys => if jsonbKeyLt y.1 x.1 then y :: insertByKey x ys else x :: y :: ys

def sortByKey : List (String × JVal) → List (String × JVal)
  | [] => []
  | x :: xs => insertByKey x (sortByKey xs)

/-- The youtube-ids CASE of the merge: an object cell flattens to its
values (in jsonb key order; `ARRAY(...)` over an empty object is the empty
array); an array cell takes its elements (`array_agg` over zero rows is
NULL); anything else comma-splits; the exception handler also
comma-splits. -/
def mergeYoutube : Option String → Option (List String)
  | none => none
  | some s =>
    if s = "" then none
    else if startsWithWsThen lbraceChar s then
      match jsonParse s with
      | some (JVal.obj fs) =>
        some ((sortByKey (fs.foldl (fun acc p => objSet acc p.1 p.2) [])).map
          (fun p => jsonbElemText p.2))
      | _ => some (stringToArray s)
    else if startsWithWsThen '[' s then
      match jsonParse s with
      | some (JVal.arr xs) =>
        if xs.isEmpty then none else some (xs.map jsonbElemText)
      | _ => some (stringToArray s)
    else some (stringToArray s)

end MediaVault

namespace MediaVault

/-! ## The canonical store and the upsert -/

/-- One row of `media_items` (the serial primary key is not modelled;
`created_at`/`updated_at` carry the transaction timestamp `now`). -/
structure CanonRow where
  external_id : Option String
  guid : Option String
  title : Option String
  series_title : Option String
  season_number : Option Int
  episode_number : Option Int
  content_type : Option String
  availability_state : Option String
  countries : Option (List String)
  premium_features : Option (List String)
  updated_timestamp : Option Int
  added_timestamp : Option Int
  provider : Option String
  description : Option String
  available_date : Option PgTimestamp
  expiration_date : Option PgTimestamp
  ratings : Option JVal
  youtube_video_ids : Option (List String)
  primary_category_name : Option String
  primary_category_id : Option String
  source_partner : Option String
  video_id : Option String
  pub_date : Option PgTimestamp
  content : Option JVal
  thumbnails : Option JVal
  cbs : Option JVal
  ytcp : Option JVal
  yt : Option JVal
  msn : Option JVal
  pl2 : Option JVal
  created_at : Nat
  updated_at : Nat

/-- The typed row the merge computes from one staging row (the VALUES list
of the INSERT, with the per-field normalizations above). -/
def toCanon (now : Nat) (rec : StagRow) : CanonRow where
  external_id := rec.id
  guid := rec.guid
  title := rec.title
  series_title := rec.series_title
  season_number := parseIntField rec.season_number
  episode_number := parseIntField rec.episode_number
  content_type := rec.content_type
  availability_state := rec.availabilityState
  countries := mergeCountries rec.countries
  premium_features := mergeCountries rec.premium_features
  updated_timestamp := parseMillis rec.updated
  added_timestamp := parseMillis rec.added
  provider := rec.provider
  description := rec.description
  available_date := parseTsField rec.availableDate
  expiration_date := parseTsField rec.expirationDate
  ratings := mergeRatings rec.ratings
  youtube_video_ids := mergeYoutube rec.youtube_video_ids
  primary_category_name := rec.primary_category_name
  primary_category_id := rec.primary_category_id
  source_partner := rec.source_partner
  video_id := rec.video_id
  pub_date := parseTsField rec.pubDate
  content := lookupKey rec.raw_row "content"
  thumbnails := lookupKey rec.raw_row "thumbnails"
  cbs := lookupKey rec.raw_row "cbs"
  ytcp := lookupKey rec.raw_row "ytcp"
  yt := lookupKey rec.raw_row "yt"
  msn := lookupKey rec.raw_row "msn"
  pl2 := lookupKey rec.raw_row "pl2"
  created_at := now
  updated_at := now

/-- The `ON CONFLICT ... DO UPDATE SET` list: every mapped column is
overwritten with the EXCLUDED value and `updated_at` refreshes;
`external_id` and `created_at` stay with the existing row. -/
def applyUpdate (now : Nat) (src : CanonRow) (r : CanonRow) : CanonRow :=
  { src with
    external_id := r.external_id
    created_at := r.created_at
    updated_at := now }

/-- `INSERT ... ON CONFLICT (external_id) DO UPDATE`: a NULL key never
matches the unique index (SQL NULLs are distinct), so an id-less row
always inserts; a non-null key updates the matching row in place. -/
def upsert (now : Nat) (db : List CanonRow) (src : CanonRow) : List CanonRow :=
  match src.external_id with
  | none => db ++ [src]
  | some x =>
    if db.any (fun r => r.external_id = some x) then
      db.map (fun r => if r.external_id = some x then applyUpdate now src r else r)
    else db ++ [src]

/-- The `import_media_csv` PL/pgSQL function: loop over all staging rows,
upsert each, return the processed count (incremented unconditionally). -/
def importMediaCsv (now : Nat) (db : List CanonRow) (staging : List StagRow) :
    List CanonRow × Nat :=
  staging.foldl (fun acc rec => (upsert now acc.1 (toCanon now rec), acc.2 + 1))
    (db, 0)

/-- The merge's evaluation of one staging row's VALUES list with its abort
path: the two `::NUMERIC::INTEGER` casts are evaluated in list order and
have no exception handler, so an out-of-int4-range cell raises out of the
function; when neither raises, the typed row is exactly `toCanon`. -/
def toCanonE (now : Nat) (rec : StagRow) : Except Unit CanonRow :=
  match parseIntFieldE rec.season_number with
  | Except.error e => Except.error e
  | Except.ok sn =>
    match parseIntFieldE rec.episode_number with
    | Except.error e => Except.error e
    | Except.ok en =>
      Except.ok { toCanon now rec with season_number := sn, episode_number := en }

/-- True exactly when the row's season or episode cell matches the numeric
pattern but its rounded value exceeds the int4 maximum — the inputs on
which the merge raises uncaught. -/
def rowCastRaises (rec : StagRow) : Bool :=
  (match parseIntFieldE rec.season_number with
   | Except.error _ => true
   | Except.ok _ => false)
  || (match parseIntFieldE rec.episode_number with
      | Except.error _ => true
      | Except.ok _ => false)

def importMediaCsvEAux (now : Nat) :
    List StagRow → List CanonRow → Nat → Except Unit (List CanonRow × Nat)
  | [], db, n => Except.ok (db, n)
  | rec :: rest, db, n =>
    match toCanonE now rec with
    | Except.error e => Except.error e
    | Except.ok row => importMediaCsvEAux now rest (upsert now db row) (n + 1)

/-- The `import_media_csv` PL/pgSQL function including its abort path: the
loop upserts row after row and raises at the first row whose
season/episode cast overflows int4 (no handler exists for that error, so
the whole function call errors and the caller rolls the run back); on a
staging table with no such row it returns exactly `importMediaCsv`. -/
def importMediaCsvE (now : Nat) (db : List CanonRow) (staging : List StagRow) :
    Except Unit (List CanonRow × Nat) :=
  importMediaCsvEAux now staging db 0

/-! ## Database state and a whole import run -/

structure DB where
  media : List CanonRow
  staging : List StagRow

def emptyDB : DB := ⟨[], []⟩

/-- One committed import run over pre-parsed records (the JSON import
path; the CSV path stages the same rows through batches): truncate
staging, load the reshaped rows, merge, leave staging populated. -/
def importRun (now : Nat) (db : DB) (input : List Record) : DB × Nat :=
  let staged := input.map toStagRow
  let res := importMediaCsv now db.media staged
  ({ media := res.1, staging := staged }, res.2)

end MediaVault

namespace MediaVault

/-! ## The `/api/import/csv` orchestrator

The handler is embedded as a deterministic machine over the stream events
the CSV parser delivers (`data` rows and stream errors), parameterized by
oracles for the outcomes of the store operations (whether the k-th batch
insert fails, whether the merge succeeds).  It produces the list of SQL
commands issued on the connection and the HTTP response; `execActs` then
gives those commands their Postgres transaction semantics (COMMIT
publishes the working state, ROLLBACK discards it). -/

/-- An event from the piped CSV stream. -/
inductive Ev where
  | row (r : Record)
  | err

/-- A command issued on the pooled connection.  A batch insert is split
into its start (the query is sent, the source is paused) and its
completion (the promise resolves, the source resumes). -/
inductive Act where
  | beginTx
  | truncate
  | insert (rows : List StagRow)
  | insertDone
  | mergeCall
  | commit
  | rollback

inductive Resp where
  | ok
  | error
deriving DecidableEq

/-- Outcomes of the store operations during one run. -/
structure Oracles where
  failInsert : Nat → Bool
  mergeOk : Bool

def BATCH_SIZE : Nat := 500

def rowsOf : List Ev → List Record
  | [] => []
  | Ev.row r :: rest => r :: rowsOf rest
  | Ev.err :: rest => rowsOf rest

/-- The stream loop of the handler: `data` pushes onto the batch and, at
`BATCH_SIZE`, pauses the stream and awaits one batch insert; `error`
rejects; `end` flushes the non-empty partial batch, runs the merge and
commits.  Any rejection reaches the catch block, which rolls back and
answers 500.  The batch is accumulated in reverse with its length
alongside (JS `push`/`.length`); `k` counts issued batch inserts. -/
def csvLoop (o : Oracles) : List Ev → List Record → Nat → Nat → List Act × Resp
  | Ev.err :: _, _, _, _ => ([Act.rollback], Resp.error)
  | Ev.row r :: rest, batchRev, bl, k =>
    if BATCH_SIZE ≤ bl + 1 then
      if o.failInsert k then
        ([Act.insert ((r :: batchRev).reverse.map toStagRow), Act.rollback],
          Resp.error)
      else
        let res := csvLoop o rest [] 0 (k + 1)
        (Act.insert ((r :: batchRev).reverse.map toStagRow) :: Act.insertDone ::
          res.1, res.2)
    else csvLoop o rest (r :: batchRev) (bl + 1) k
  | [], batchRev, _, k =>
    if batchRev.isEmpty then
      if o.mergeOk then ([Act.mergeCall, Act.commit], Resp.ok)
      else ([Act.rollback], Resp.error)
    else if o.failInsert k then
      ([Act.insert (batchRev.reverse.map toStagRow), Act.rollback], Resp.error)
    else if o.mergeOk then
      ([Act.insert (batchRev.reverse.map toStagRow), Act.insertDone,
        Act.mergeCall, Act.commit], Resp.ok)
    else
      ([Act.insert (batchRev.reverse.map toStagRow), Act.insertDone,
        Act.rollback], Resp.error)

/-- The whole handler: BEGIN, TRUNCATE staging, then the stream loop. -/
def runCsvHandler (evs : List Ev) (o : Oracles) : List Act × Resp :=
  let res := csvLoop o evs [] 0 0
  (Act.beginTx :: Act.truncate :: res.1, res.2)

/-- Postgres transaction semantics of a command trace: `committed` is the
state other connections see, `work` the in-transaction state.  COMMIT
publishes `work`; ROLLBACK reverts to `committed`; the final visible state
is `committed`. -/
def execActs (now : Nat) (committed work : DB) : List Act → DB
  | [] => committed
  | Act.beginTx :: rest => execActs now committed committed rest
  | Act.truncate :: rest =>
    execActs now committed { work with staging := [] } rest
  | Act.insert rows :: rest =>
    execActs now committed { work with staging := work.staging ++ rows } rest
  | Act.insertDone :: rest => execActs now committed work rest
  | Act.mergeCall :: rest =>
    execActs now committed
      { work with media := (importMediaCsv now work.media work.staging).1 } rest
  | Act.commit :: rest => execActs now work work rest
  | Act.rollback :: rest => execActs now committed committed rest

/-! Trace observations for the backpressure claim. -/

def isInsertAct : Act → Bool
  | .insert _ => true
  | _ => false

def countInserts (tr : List Act) : Nat := (tr.filter isInsertAct).length

def wellSequencedAux : Bool → List Act → Bool
  | _, [] => true
  | inFlight, Act.insert _ :: rest =>
    if inFlight then false else wellSequencedAux true rest
  | _, Act.insertDone :: rest => wellSequencedAux false rest
  | inFlight, _ :: rest => wellSequencedAux inFlight rest

/-- No batch insert starts while a previous one is still in flight. -/
def wellSequenced (tr : List Act) : Bool := wellSequencedAux false tr

/-- Every batch insert (including a final partial flush) precedes the
merge call. -/
def noInsertAfterMerge : List Act → Bool
  | [] => true
  | Act.mergeCall :: rest => rest.all (fun a => !isInsertAct a)
  | _ :: rest => noInsertAfterMerge rest

def containsMerge (tr : List Act) : Bool := tr.any (fun a =>
  match a with
  | Act.mergeCall => true
  | _ => false)

/-- Oracles of a run in which the store never fails. -/
def okOracle : Oracles := ⟨fun _ => false, true⟩

end MediaVault

namespace MediaVault

/-! ## Helper lemmas on the merge -/

/-- The canonical-store component of the merge as a simple fold. -/
def mergeMedia (now : Nat) (db : List CanonRow) (st : List StagRow) :
    List CanonRow :=
  st.foldl (fun d rec => upsert now d (toCanon now rec)) db

theorem importMediaCsv_fst (now : Nat) (db : List CanonRow) (st : List StagRow) :
    (importMediaCsv now db st).1 = mergeMedia now db st := by
  suffices h : ∀ (st : List StagRow) (acc : List CanonRow × Nat),
      (st.foldl (fun acc rec => (upsert now acc.1 (toCanon now rec), acc.2 + 1))
        acc).1 = mergeMedia now acc.1 st by
    simpa [importMediaCsv] using h st (db, 0)
  intro st
  induction st with
  | nil => intro acc; rfl
  | cons r rest ih =>
    intro acc
    simpa [List.foldl_cons, mergeMedia] using ih (upsert now acc.1 (toCanon now r), acc.2 + 1)

theorem importMediaCsv_count (now : Nat) (db : List CanonRow) (st : List StagRow) :
    (importMediaCsv now db st).2 = st.length := by
  suffices h : ∀ (st : List StagRow) (acc : List CanonRow × Nat),
      (st.foldl (fun acc rec => (upsert now acc.1 (toCanon now rec), acc.2 + 1))
        acc).2 = acc.2 + st.length by
    simpa [importMediaCsv] using h st (db, 0)
  intro st
  induction st with
  | nil => intro acc; simp
  | cons r rest ih =>
    intro acc
    have := ih (upsert now acc.1 (toCanon now r), acc.2 + 1)
    simp [List.foldl_cons, this]
    omega

theorem mergeMedia_cons (now : Nat) (db : List CanonRow) (rec : StagRow)
    (rest : List StagRow) :
    mergeMedia now db (rec :: rest)
      = mergeMedia now (upsert now db (toCanon now rec)) rest := rfl

theorem toCanon_external_id (now : Nat) (rec : StagRow) :
    (toCanon now rec).external_id = rec.id := rfl

theorem toCanonE_ok (now : Nat) (rec : StagRow)
    (h : rowCastRaises rec = false) :
    toCanonE now rec = Except.ok (toCanon now rec) := by
  cases hs : parseIntFieldE rec.season_number with
  | error e => simp [rowCastRaises, hs] at h
  | ok sn =>
    cases he : parseIntFieldE rec.episode_number with
    | error e => simp [rowCastRaises, hs, he] at h
    | ok en =>
      have h1 : parseIntField rec.season_number = sn := by
        unfold parseIntField
        rw [hs]
      have h2 : parseIntField rec.episode_number = en := by
        unfold parseIntField
        rw [he]
      unfold toCanonE
      rw [hs, he, ← h1, ← h2]
      rfl

theorem importMediaCsvEAux_ok (now : Nat) :
    ∀ (st : List StagRow), (∀ r ∈ st, rowCastRaises r = false) →
      ∀ (db : List CanonRow) (n : Nat),
        importMediaCsvEAux now st db n
          = Except.ok
              (st.foldl
                (fun acc rec => (upsert now acc.1 (toCanon now rec), acc.2 + 1))
                (db, n)) := by
  intro st
  induction st with
  | nil => intro _ db n; rfl
  | cons r rest ih =>
    intro h db n
    have hr : rowCastRaises r = false := h r (List.mem_cons_self r rest)
    have hrest : ∀ x ∈ rest, rowCastRaises x = false :=
      fun x hx => h x (List.mem_cons_of_mem r hx)
    rw [importMediaCsvEAux, toCanonE_ok now r hr]
    simpa [List.foldl_cons] using ih hrest (upsert now db (toCanon now r)) (n + 1)

theorem importMediaCsvE_of_noRaise (now : Nat) (db : List CanonRow)
    (st : List StagRow) (h : ∀ r ∈ st, rowCastRaises r = false) :
    importMediaCsvE now db st = Except.ok (importMediaCsv now db st) := by
  rw [importMediaCsvE, importMediaCsvEAux_ok now st h db 0]
  rfl

end MediaVault

namespace MediaVault

/-! ## Claim theorems (normalization and merge behavior) -/

/-- C6: list normalization is confluent over input encodings — the inputs
`"US,CA"` (delimited), `["US","CA"]` (JSON array) and `"[US] [CA]"`
(concatenated-array artifact) all reach the canonical countries column as
the same two-element ordered list `["US","CA"]`, end to end through the
staging normalization and the merge. -/
theorem c6_list_normalization_confluent :
    (toCanon 0 (toStagRow [("countries", JVal.str "US,CA")])).countries
        = some ["US", "CA"]
    ∧ (toCanon 0 (toStagRow [("countries", JVal.str "[\"US\",\"CA\"]")])).countries
        = some ["US", "CA"]
    ∧ (toCanon 0 (toStagRow [("countries", JVal.str "[US] [CA]")])).countries
        = some ["US", "CA"] := by
  refine ⟨?_, ?_, ?_⟩ <;> decide

/-- C4 counterexample: "never aborts the row" fails — the staging row with
`season_number = "2147483648"` matches the numeric pattern `^\d+(\.\d+)?$`
yet its value exceeds the int4 maximum `2147483647`, and the season cast
(the one conversion in `import_media_csv` outside any BEGIN/EXCEPTION
block) raises `integer out of range` uncaught: the merge call on that
single staging row errors instead of returning a processed count, aborting
the entire run. -/
theorem c4_counterexample :
    (toStagRow [("id", JVal.str "r1"),
        ("season_number", JVal.str "2147483648")]).season_number
      = some "2147483648"
    ∧ matchesNumPattern "2147483648" = true
    ∧ rowCastRaises (toStagRow [("id", JVal.str "r1"),
        ("season_number", JVal.str "2147483648")]) = true
    ∧ importMediaCsvE 0 []
        [toStagRow [("id", JVal.str "r1"),
          ("season_number", JVal.str "2147483648")]]
      = Except.error () := by
  exact ⟨by decide, by decide, by decide, rfl⟩

/-- C4 (amended): a value that fails the numeric pattern degrades exactly
that field to null and does not abort the row — a row whose
`season_number` is `"not-a-number"` merges with a NULL `season_number`,
replacing that one cell by any non-raising value still merges and changes
only that canonical column, and a merge over staging rows none of whose
season/episode cells overflows int4 succeeds and counts every row; but a
pattern-matching cell whose rounded value exceeds the int4 maximum raises
uncaught and aborts the entire merge call, so the tolerance guarantee
holds only below the int4 range. -/
theorem c4_malformed_field_degrades (now : Nat) (db : List CanonRow)
    (st : List StagRow) (rec : StagRow)
    (h : rec.season_number = some "not-a-number")
    (hok : ∀ r ∈ st, rowCastRaises r = false) :
    (toCanon now rec).season_number = none
    ∧ (∀ v, parseIntFieldE v ≠ Except.error ()
        → parseIntFieldE rec.episode_number ≠ Except.error ()
        → toCanonE now { rec with season_number := v }
            = Except.ok { toCanon now rec with season_number := parseIntField v })
    ∧ importMediaCsvE now db st = Except.ok (importMediaCsv now db st)
    ∧ (importMediaCsv now db st).2 = st.length := by
  refine ⟨?_, ?_, importMediaCsvE_of_noRaise now db st hok,
    importMediaCsv_count now db st⟩
  · simp only [toCanon, h]
    decide
  · intro v hv he
    have hraise : rowCastRaises { rec with season_number := v } = false := by
      show ((match parseIntFieldE v with
          | Except.error _ => true
          | Except.ok _ => false)
        || (match parseIntFieldE rec.episode_number with
            | Except.error _ => true
            | Except.ok _ => false)) = false
      cases hsv : parseIntFieldE v with
      | error e => cases e; exact absurd hsv hv
      | ok sn =>
        cases hev : parseIntFieldE rec.episode_number with
        | error e => cases e; exact absurd hev he
        | ok en => rfl
    rw [toCanonE_ok now { rec with season_number := v } hraise]
    rfl

theorem c4_malformed_field_degrades_witness :
    ((toStagRow [("id", JVal.str "r1"),
        ("season_number", JVal.str "not-a-number")]).season_number
      = some "not-a-number"
     ∧ (∀ r ∈ [toStagRow [("id", JVal.str "r1"),
          ("season_number", JVal.str "not-a-number")]],
         rowCastRaises r = false))
    ∧ (toCanon 3 (toStagRow [("id", JVal.str "r1"),
        ("season_number", JVal.str "not-a-number")])).season_number = none
    ∧ importMediaCsvE 3 []
        [toStagRow [("id", JVal.str "r1"),
          ("season_number", JVal.str "not-a-number")]]
      = Except.ok (importMediaCsv 3 []
          [toStagRow [("id", JVal.str "r1"),
            ("season_number", JVal.str "not-a-number")]])
    ∧ (importMediaCsv 3 []
        [toStagRow [("id", JVal.str "r1"),
          ("season_number", JVal.str "not-a-number")]]).2 = 1 := by
  refine ⟨⟨by decide, by decide⟩, ?_, ?_, ?_⟩
  · exact (c4_malformed_field_degrades 3 [] []
      (toStagRow [("id", JVal.str "r1"),
        ("season_number", JVal.str "not-a-number")]) (by decide)
      (by decide)).1
  · exact (c4_malformed_field_degrades 3 []
      [toStagRow [("id", JVal.str "r1"),
        ("season_number", JVal.str "not-a-number")]]
      (toStagRow [("id", JVal.str "r1"),
        ("season_number", JVal.str "not-a-number")]) (by decide)
      (by decide)).2.2.1
  · simpa using (c4_malformed_field_degrades 3 []
      [toStagRow [("id", JVal.str "r1"),
        ("season_number", JVal.str "not-a-number")]]
      (toStagRow [("id", JVal.str "r1"),
        ("season_number", JVal.str "not-a-number")]) (by decide)
      (by decide)).2.2.2

/-- C5: the vendor-namespaced alias takes precedence — on a row carrying
both `series_title` and `cbs$SeriesTitle`, the staged and merged
`series_title` equals the alias value; when neither key is present (or
both are null) the merged field is null. -/
theorem c5_namespace_precedence (r : Record) (a b : String)
    (halias : lookupKey r "cbs$SeriesTitle" = some (JVal.str b))
    (_hplain : lookupKey r "series_title" = some (JVal.str a)) :
    (toStagRow r).series_title = some b
    ∧ (∀ now, (toCanon now (toStagRow r)).series_title = some b)
    ∧ (∀ (r' : Record) (now : Nat), getVal r' "cbs$SeriesTitle" = none →
        getVal r' "series_title" = none →
        (toCanon now (toStagRow r')).series_title = none) := by
  have hstag : (toStagRow r).series_title = some b := by
    simp [toStagRow, getText, getVal, halias, asText]
  refine ⟨hstag, fun now => hstag, ?_⟩
  intro r' now h1 h2
  simp [toCanon, toStagRow, getText, h1, h2]

theorem c5_namespace_precedence_witness :
    lookupKey [("series_title", JVal.str "A"), ("cbs$SeriesTitle", JVal.str "B")]
        "cbs$SeriesTitle" = some (JVal.str "B")
    ∧ (toCanon 0 (toStagRow [("series_title", JVal.str "A"),
        ("cbs$SeriesTitle", JVal.str "B")])).series_title = some "B" := by
  constructor
  · rfl
  · exact (c5_namespace_precedence
      [("series_title", JVal.str "A"), ("cbs$SeriesTitle", JVal.str "B")]
      "A" "B" rfl rfl).2.1 0

/-- C10: a staging row whose id is null always inserts a brand-new
canonical row — the `ON CONFLICT (external_id)` clause never fires on a
NULL key — so a run of id-less rows appends one new canonical row per
staging row, and an input record without an `id` key stages a null id. -/
theorem c10_null_id_always_inserts (now : Nat) (db : List CanonRow)
    (st : List StagRow) (h : ∀ rec ∈ st, rec.id = none) :
    (importMediaCsv now db st).1 = db ++ st.map (toCanon now)
    ∧ (∀ (r : Record), getVal r "id" = none → (toStagRow r).id = none) := by
  constructor
  · rw [importMediaCsv_fst]
    induction st generalizing db with
    | nil => simp [mergeMedia]
    | cons rec rest ih =>
      rw [mergeMedia_cons]
      have hid : (toCanon now rec).external_id = none := by
        rw [toCanon_external_id]
        exact h rec (List.mem_cons_self rec rest)
      rw [show upsert now db (toCanon now rec) = db ++ [toCanon now rec] by
        unfold upsert; rw [hid]]
      rw [ih (db ++ [toCanon now rec])
        (fun r hr => h r (List.mem_cons_of_mem rec hr))]
      simp
  · intro r hr
    simp [toStagRow, getText, hr]

theorem c10_null_id_always_inserts_witness :
    (∀ rec ∈ [toStagRow [("title", JVal.str "T")]], rec.id = none)
    ∧ (importMediaCsv 2 [] [toStagRow [("title", JVal.str "T")]]).1
        = [] ++ [toStagRow [("title", JVal.str "T")]].map (toCanon 2) := by
  have h : ∀ rec ∈ [toStagRow [("title", JVal.str "T")]], rec.id = none := by
    intro rec hr
    rw [List.mem_singleton] at hr
    subst hr
    rfl
  exact ⟨h, (c10_null_id_always_inserts 2 [] _ h).1⟩

end MediaVault

namespace MediaVault

/-! ## Helper lemmas on the orchestrator -/

/-- Every run with a failing merge answers with the single error, whatever
the stream delivered. -/
theorem csvLoop_error_of_mergeFail (o : Oracles) (hm : o.mergeOk = false) :
    ∀ (evs : List Ev) (b : List Record) (bl k : Nat),
      (csvLoop o evs b bl k).2 = Resp.error := by
  intro evs
  induction evs with
  | nil =>
    intro b bl k
    by_cases hb : b.isEmpty = true
    · simp [csvLoop, hb, hm]
    · by_cases hf : o.failInsert k = true
      · simp [csvLoop, hb, hf]
      · simp [csvLoop, hb, hf, hm]
  | cons e rest ih =>
    intro b bl k
    cases e with
    | err => simp [csvLoop]
    | row r =>
      by_cases hsz : BATCH_SIZE ≤ bl + 1
      · by_cases hf : o.failInsert k = true
        · simp [csvLoop, hsz, hf]
        · simpa [csvLoop, hsz, hf] using ih [] 0 (k + 1)
      · simpa [csvLoop, hsz] using ih (r :: b) (bl + 1) k

/-- Transactional all-or-nothing: whenever the loop answers with an error,
its command trace ends in ROLLBACK without COMMIT, so executing it leaves
the committed state untouched. -/
theorem execActs_of_loop_error (now : Nat) (o : Oracles) :
    ∀ (evs : List Ev) (b : List Record) (bl k : Nat) (committed work : DB),
      (csvLoop o evs b bl k).2 = Resp.error →
      execActs now committed work (csvLoop o evs b bl k).1 = committed := by
  intro evs
  induction evs with
  | nil =>
    intro b bl k committed work hresp
    by_cases hb : b.isEmpty = true
    · by_cases hm : o.mergeOk = true
      · simp [csvLoop, hb, hm] at hresp
      · simp [csvLoop, hb, hm, execActs]
    · by_cases hf : o.failInsert k = true
      · simp [csvLoop, hb, hf, execActs]
      · by_cases hm : o.mergeOk = true
        · simp [csvLoop, hb, hf, hm] at hresp
        · simp [csvLoop, hb, hf, hm, execActs]
  | cons e rest ih =>
    intro b bl k committed work hresp
    cases e with
    | err => simp [csvLoop, execActs]
    | row r =>
      by_cases hsz : BATCH_SIZE ≤ bl + 1
      · by_cases hf : o.failInsert k = true
        · simp [csvLoop, hsz, hf, execActs]
        · have hr : (csvLoop o rest [] 0 (k + 1)).2 = Resp.error := by
            simpa [csvLoop, hsz, hf] using hresp
          simp only [csvLoop, if_pos hsz, if_neg hf]
          simp only [execActs]
          exact ih [] 0 (k + 1) committed _ hr
      · have hr : (csvLoop o rest (r :: b) (bl + 1) k).2 = Resp.error := by
          simpa [csvLoop, hsz] using hresp
        simp only [csvLoop, if_neg hsz]
        exact ih (r :: b) (bl + 1) k committed work hr

/-- C1: atomicity of an import run — if the merge fails the run answers
with the single ingestion error, and any failed run (merge failure, batch
insert failure, stream error) rolls the transaction back, leaving both the
canonical store and the staging table exactly as they were before the run
(the truncate and the staged batches roll back too). -/
theorem c1_failed_run_rolls_back (now : Nat) (db : DB) (evs : List Ev)
    (o : Oracles) :
    (o.mergeOk = false → (runCsvHandler evs o).2 = Resp.error)
    ∧ ((runCsvHandler evs o).2 = Resp.error →
        execActs now db db (runCsvHandler evs o).1 = db) := by
  constructor
  · intro hm
    exact csvLoop_error_of_mergeFail o hm evs [] 0 0
  · intro hresp
    show execActs now db db
      (Act.beginTx :: Act.truncate :: (csvLoop o evs [] 0 0).1) = db
    simp only [execActs]
    exact execActs_of_loop_error now o evs [] 0 0 db _ hresp

theorem c1_failed_run_rolls_back_witness :
    (Oracles.mk (fun _ => false) false).mergeOk = false
    ∧ (runCsvHandler [Ev.row [("id", JVal.str "x")]]
        (Oracles.mk (fun _ => false) false)).2 = Resp.error
    ∧ execActs 0 emptyDB emptyDB
        (runCsvHandler [Ev.row [("id", JVal.str "x")]]
          (Oracles.mk (fun _ => false) false)).1 = emptyDB := by
  have h := c1_failed_run_rolls_back 0 emptyDB [Ev.row [("id", JVal.str "x")]]
    (Oracles.mk (fun _ => false) false)
  have hresp := h.1 rfl
  exact ⟨rfl, hresp, h.2 hresp⟩

end MediaVault

namespace MediaVault

/-- A run with no stream error and no store failure succeeds, and its
committed state stages every row the parser delivered, in order, with the
merge applied over all of them: no row is ever skipped. -/
theorem csvLoop_ok_characterization (now : Nat) (o : Oracles)
    (hfail : ∀ j, o.failInsert j = false) (hm : o.mergeOk = true) :
    ∀ (evs : List Ev), Ev.err ∉ evs →
      ∀ (b : List Record) (bl k : Nat) (committed work : DB),
      (csvLoop o evs b bl k).2 = Resp.ok
      ∧ execActs now committed work (csvLoop o evs b bl k).1
          = { media := (importMediaCsv now work.media
                (work.staging ++ (b.reverse ++ rowsOf evs).map toStagRow)).1,
              staging := work.staging ++ (b.reverse ++ rowsOf evs).map toStagRow } := by
  intro evs
  induction evs with
  | nil =>
    intro _ b bl k committed work
    by_cases hb : b.isEmpty = true
    · have hbnil : b = [] := by
        cases b with
        | nil => rfl
        | cons x xs => simp at hb
      subst hbnil
      simp [csvLoop, hm, execActs, rowsOf]
    · simp [csvLoop, hb, hfail k, hm, execActs, rowsOf]
  | cons e rest ih =>
    intro hne b bl k committed work
    cases e with
    | err => exact absurd (List.mem_cons_self _ _) hne
    | row r =>
      have hne' : Ev.err ∉ rest := fun h => hne (List.mem_cons_of_mem _ h)
      by_cases hsz : BATCH_SIZE ≤ bl + 1
      · have h2 := ih hne' [] 0 (k + 1) committed
          { work with staging :=
              work.staging ++ ((r :: b).reverse.map toStagRow) }
        have hf : ¬ (o.failInsert k = true) := by simp [hfail k]
        refine ⟨?_, ?_⟩
        · simpa [csvLoop, hsz, hfail k] using h2.1
        · simp only [csvLoop, if_pos hsz, if_neg hf]
          simp only [execActs]
          rw [h2.2]
          simp [rowsOf, List.reverse_cons]
      · have h2 := ih hne' (r :: b) (bl + 1) k committed work
        refine ⟨?_, ?_⟩
        · simpa [csvLoop, hsz] using h2.1
        · simp only [csvLoop, if_neg hsz]
          rw [h2.2]
          simp [rowsOf, List.reverse_cons]

/-- C8 (amended): a malformed CSV line is not skipped — every row event
the parser delivers is staged and merged like any other (so a degenerate
row from a malformed line is counted, not dropped), and when neither the
stream nor the store fails the run succeeds over all delivered rows.  A
line surfaced by the parser as a stream error instead fails the whole run
(rolled back by `c1_failed_run_rolls_back`). -/
theorem c8_no_row_skipped (now : Nat) (db : DB) (evs : List Ev) (o : Oracles)
    (hne : Ev.err ∉ evs) (hfail : ∀ j, o.failInsert j = false)
    (hm : o.mergeOk = true) :
    (runCsvHandler evs o).2 = Resp.ok
    ∧ execActs now db db (runCsvHandler evs o).1
        = { media := (importMediaCsv now db.media ((rowsOf evs).map toStagRow)).1,
            staging := (rowsOf evs).map toStagRow } := by
  have h := csvLoop_ok_characterization now o hfail hm evs hne [] 0 0 db
    { db with staging := [] }
  refine ⟨h.1, ?_⟩
  show execActs now db db
    (Act.beginTx :: Act.truncate :: (csvLoop o evs [] 0 0).1)
      = { media := (importMediaCsv now db.media ((rowsOf evs).map toStagRow)).1,
          staging := (rowsOf evs).map toStagRow }
  simp only [execActs]
  simpa using h.2

theorem c8_no_row_skipped_witness :
    (Ev.err ∉ [Ev.row [("id", JVal.str "a")], Ev.row [("id", JVal.str "b")]])
    ∧ (∀ j, okOracle.failInsert j = false)
    ∧ okOracle.mergeOk = true
    ∧ (runCsvHandler [Ev.row [("id", JVal.str "a")],
        Ev.row [("id", JVal.str "b")]] okOracle).2 = Resp.ok
    ∧ execActs 4 emptyDB emptyDB
        (runCsvHandler [Ev.row [("id", JVal.str "a")],
          Ev.row [("id", JVal.str "b")]] okOracle).1
        = { media := (importMediaCsv 4 emptyDB.media
              ((rowsOf [Ev.row [("id", JVal.str "a")],
                Ev.row [("id", JVal.str "b")]]).map toStagRow)).1,
            staging := (rowsOf [Ev.row [("id", JVal.str "a")],
              Ev.row [("id", JVal.str "b")]]).map toStagRow } := by
  have hne : Ev.err ∉ [Ev.row [("id", JVal.str "a")],
      Ev.row [("id", JVal.str "b")]] := by simp
  have h := c8_no_row_skipped 4 emptyDB
    [Ev.row [("id", JVal.str "a")], Ev.row [("id", JVal.str "b")]] okOracle
    hne (fun j => rfl) rfl
  exact ⟨hne, fun j => rfl, rfl, h.1, h.2⟩

/-- C8 (counterexample to the claim as stated): for the stream of the
malformed-CSV integration test — two well-formed rows around the
degenerate row a malformed line produces — the handler stages all three
rows (the degenerate row included) and succeeds; it does not stage only
the two well-formed rows, so the malformed line is not "skipped". -/
theorem c8_counterexample :
    (runCsvHandler
        [Ev.row [("id", JVal.str "1"), ("title", JVal.str "Valid Movie")],
         Ev.row [("id", JVal.str "invalid-row-without-comma")],
         Ev.row [("id", JVal.str "3"), ("title", JVal.str "Third Movie")]]
        okOracle).2 = Resp.ok
    ∧ (execActs 0 emptyDB emptyDB
        (runCsvHandler
          [Ev.row [("id", JVal.str "1"), ("title", JVal.str "Valid Movie")],
           Ev.row [("id", JVal.str "invalid-row-without-comma")],
           Ev.row [("id", JVal.str "3"), ("title", JVal.str "Third Movie")]]
          okOracle).1).staging.length = 3
    ∧ ¬ (execActs 0 emptyDB emptyDB
        (runCsvHandler
          [Ev.row [("id", JVal.str "1"), ("title", JVal.str "Valid Movie")],
           Ev.row [("id", JVal.str "invalid-row-without-comma")],
           Ev.row [("id", JVal.str "3"), ("title", JVal.str "Third Movie")]]
          okOracle).1).staging.length = 2 := by
  refine ⟨by decide, by decide, by decide⟩

/-- C9: backpressure and batching — a clean run over 10,000 rows issues
exactly 20 batch inserts, each started only after the previous one
completed, all before the single merge call; over 10,300 rows the
end-of-stream partial batch is flushed as a 21st insert, still before the
merge is invoked. -/
theorem c9_backpressure_batching :
    countInserts (runCsvHandler (List.replicate 10000 (Ev.row [])) okOracle).1 = 20
    ∧ wellSequenced (runCsvHandler (List.replicate 10000 (Ev.row [])) okOracle).1 = true
    ∧ noInsertAfterMerge (runCsvHandler (List.replicate 10000 (Ev.row [])) okOracle).1 = true
    ∧ (runCsvHandler (List.replicate 10000 (Ev.row [])) okOracle).2 = Resp.ok
    ∧ countInserts (runCsvHandler (List.replicate 10300 (Ev.row [])) okOracle).1 = 21
    ∧ wellSequenced (runCsvHandler (List.replicate 10300 (Ev.row [])) okOracle).1 = true
    ∧ noInsertAfterMerge (runCsvHandler (List.replicate 10300 (Ev.row [])) okOracle).1 = true
    ∧ containsMerge (runCsvHandler (List.replicate 10300 (Ev.row [])) okOracle).1 = true := by
  refine ⟨by decide, by decide, by decide, by decide, by decide, by decide,
    by decide, by decide⟩

end MediaVault

namespace MediaVault

/-! ## A closed form for the merge

`mergeMedia` is characterized row by row: existing canonical rows keyed by
a staged id are overwritten with the values of the *last* staging row
carrying that id, and ids unseen in the store append one new row at their
first occurrence, again with last-occurrence values.  This closed form
drives the upsert-overwrite and idempotence claims. -/

def extIds (db : List CanonRow) : List String :=
  db.filterMap (fun r => r.external_id)

/-- The last staging row carrying id `x`. -/
def lastFor (st : List StagRow) (x : String) : Option StagRow :=
  (st.filter (fun rec => rec.id = some x)).getLast?

/-- What one run does to an existing canonical row. -/
def updFun (now : Nat) (st : List StagRow) (r : CanonRow) : CanonRow :=
  match r.external_id with
  | none => r
  | some x =>
    match lastFor st x with
    | some rec => applyUpdate now (toCanon now rec) r
    | none => r

/-- The rows one run appends, given the ids already present. -/
def newRows (now : Nat) : List StagRow → List String → List CanonRow
  | [], _ => []
  | rec :: rest, pres =>
    match rec.id with
    | none => toCanon now rec :: newRows now rest pres
    | some x =>
      if x ∈ pres then newRows now rest pres
      else toCanon now ((lastFor rest x).getD rec) :: newRows now rest (x :: pres)

def clearUpdatedAt (r : CanonRow) : CanonRow := { r with updated_at := 0 }

def clearCreatedAt (r : CanonRow) : CanonRow := { r with created_at := 0 }

theorem applyUpdate_external_id (now : Nat) (src r : CanonRow) :
    (applyUpdate now src r).external_id = r.external_id := rfl

theorem applyUpdate_created_at (now : Nat) (src r : CanonRow) :
    (applyUpdate now src r).created_at = r.created_at := rfl

theorem applyUpdate_applyUpdate (n1 n2 : Nat) (s1 s2 r : CanonRow) :
    applyUpdate n2 s2 (applyUpdate n1 s1 r) = applyUpdate n2 s2 r := rfl

theorem updFun_external_id (now : Nat) (st : List StagRow) (r : CanonRow) :
    (updFun now st r).external_id = r.external_id := by
  unfold updFun
  cases hr : r.external_id with
  | none => exact hr
  | some x =>
    cases hl : lastFor st x with
    | none => simp [hl, hr]
    | some rec => simp [hl, applyUpdate_external_id, hr]

theorem lastFor_cons_eq (rec : StagRow) (rest : List StagRow) (x : String)
    (h : rec.id = some x) :
    lastFor (rec :: rest) x = some ((lastFor rest x).getD rec) := by
  unfold lastFor
  rw [List.filter_cons_of_pos (by simpa using h)]
  cases hf : (rest.filter (fun rec => rec.id = some x)) with
  | nil => simp
  | cons y ys =>
    rw [List.getLast?_cons_cons]
    cases hg : (y :: ys).getLast? with
    | none => simp at hg
    | some z => simp [hg]

theorem lastFor_cons_ne (rec : StagRow) (rest : List StagRow) (x : String)
    (h : ¬ rec.id = some x) :
    lastFor (rec :: rest) x = lastFor rest x := by
  unfold lastFor
  rw [List.filter_cons_of_neg]
  simpa using h

theorem lastFor_id (st : List StagRow) (x : String) (rec : StagRow)
    (h : lastFor st x = some rec) : rec.id = some x := by
  unfold lastFor at h
  have hmem : rec ∈ st.filter (fun rec => rec.id = some x) :=
    List.mem_of_mem_getLast? (by rw [h]; exact rfl)
  simpa using List.of_mem_filter hmem

theorem mem_extIds (db : List CanonRow) (x : String) :
    x ∈ extIds db ↔ ∃ r ∈ db, r.external_id = some x := by
  unfold extIds
  rw [List.mem_filterMap]

theorem extIds_any (db : List CanonRow) (x : String) :
    (db.any (fun r => r.external_id = some x)) = true ↔ x ∈ extIds db := by
  rw [mem_extIds, List.any_eq_true]
  constructor
  · rintro ⟨r, hr, he⟩
    exact ⟨r, hr, by simpa using he⟩
  · rintro ⟨r, hr, he⟩
    exact ⟨r, hr, by simpa using he⟩

theorem newRows_congr (now : Nat) :
    ∀ (st : List StagRow) (p q : List String), (∀ y, y ∈ p ↔ y ∈ q) →
      newRows now st p = newRows now st q := by
  intro st
  induction st with
  | nil => intro p q _; rfl
  | cons rec rest ih =>
    intro p q hpq
    cases hid : rec.id with
    | none =>
      simp only [newRows, hid]
      rw [ih p q hpq]
    | some x =>
      simp only [newRows, hid]
      by_cases hx : x ∈ p
      · rw [if_pos hx, if_pos ((hpq x).1 hx)]
        exact ih p q hpq
      · rw [if_neg hx, if_neg (fun hq => hx ((hpq x).2 hq))]
        rw [ih (x :: p) (x :: q) (fun y => by simp [hpq y])]

end MediaVault

namespace MediaVault

theorem toCanon_created_at (now : Nat) (rec : StagRow) :
    (toCanon now rec).created_at = now := rfl

theorem updFun_nil (now : Nat) (r : CanonRow) : updFun now [] r = r := by
  unfold updFun
  cases hr : r.external_id <;> simp [lastFor]

theorem upsert_of_none (now : Nat) (db : List CanonRow) (rec : StagRow)
    (h : rec.id = none) :
    upsert now db (toCanon now rec) = db ++ [toCanon now rec] := by
  unfold upsert
  rw [toCanon_external_id, h]

theorem upsert_of_id (now : Nat) (db : List CanonRow) (rec : StagRow)
    (x : String) (hx : rec.id = some x) :
    upsert now db (toCanon now rec)
      = if x ∈ extIds db then
          db.map (fun r => if r.external_id = some x
            then applyUpdate now (toCanon now rec) r else r)
        else db ++ [toCanon now rec] := by
  simp only [upsert, toCanon_external_id, hx]
  by_cases hmem : x ∈ extIds db
  · rw [if_pos ((extIds_any db x).2 hmem), if_pos hmem]
  · rw [if_neg (fun h => hmem ((extIds_any db x).1 h)), if_neg hmem]

theorem updFun_eq_none (now : Nat) (st : List StagRow) (r : CanonRow)
    (hr : r.external_id = none) : updFun now st r = r := by
  unfold updFun
  rw [hr]

theorem updFun_eq_some (now : Nat) (st : List StagRow) (r : CanonRow)
    (x : String) (hr : r.external_id = some x) :
    updFun now st r = match lastFor st x with
      | some rec => applyUpdate now (toCanon now rec) r
      | none => r := by
  unfold updFun
  rw [hr]

theorem extIds_map_pres (f : CanonRow → CanonRow)
    (hf : ∀ r, (f r).external_id = r.external_id) (db : List CanonRow) :
    extIds (db.map f) = extIds db := by
  induction db with
  | nil => rfl
  | cons r rest ih =>
    simp only [List.map_cons, extIds, List.filterMap_cons] at ih ⊢
    rw [hf r]
    cases hr : r.external_id <;> simp [hr, ih]

theorem extIds_append_none (db : List CanonRow) (row : CanonRow)
    (h : row.external_id = none) : extIds (db ++ [row]) = extIds db := by
  simp [extIds, List.filterMap_append, h]

theorem extIds_append_some (db : List CanonRow) (row : CanonRow) (x : String)
    (h : row.external_id = some x) : extIds (db ++ [row]) = extIds db ++ [x] := by
  simp [extIds, List.filterMap_append, h]

theorem applyUpdate_toCanon_self (now : Nat) (rec rec' : StagRow)
    (h : rec.id = rec'.id) :
    applyUpdate now (toCanon now rec') (toCanon now rec) = toCanon now rec' := by
  unfold applyUpdate
  rw [toCanon_external_id, toCanon_created_at, h]
  rfl

/-- The closed form of the merge: existing rows are overwritten in place
with last-occurrence values, new ids append at first occurrence with
last-occurrence values. -/
theorem mergeMedia_spec (now : Nat) :
    ∀ (st : List StagRow) (db : List CanonRow),
      mergeMedia now db st = db.map (updFun now st) ++ newRows now st (extIds db) := by
  intro st
  induction st with
  | nil =>
    intro db
    show db = db.map (updFun now []) ++ newRows now [] (extIds db)
    rw [List.map_congr_left (fun (r : CanonRow) _ => updFun_nil now r)]
    simp [newRows]
  | cons rec rest ih =>
    intro db
    rw [mergeMedia_cons]
    cases hid : rec.id with
    | none =>
      rw [upsert_of_none now db rec hid, ih (db ++ [toCanon now rec]),
        extIds_append_none db _ (by rw [toCanon_external_id, hid]),
        List.map_append]
      have h1 : updFun now rest (toCanon now rec) = toCanon now rec :=
        updFun_eq_none now rest _ (by rw [toCanon_external_id, hid])
      have h2 : ∀ r : CanonRow, updFun now (rec :: rest) r = updFun now rest r := by
        intro r
        cases hr : r.external_id with
        | none => rw [updFun_eq_none now _ r hr, updFun_eq_none now _ r hr]
        | some y =>
          rw [updFun_eq_some now _ r y hr, updFun_eq_some now _ r y hr,
            lastFor_cons_ne rec rest y (by rw [hid]; simp)]
      simp only [newRows, hid]
      rw [List.map_congr_left (fun (r : CanonRow) _ => h2 r), List.map_cons,
        List.map_nil, h1, List.append_assoc]
      rfl
    | some x =>
      by_cases hmem : x ∈ extIds db
      · rw [upsert_of_id now db rec x hid, if_pos hmem,
          ih (db.map (fun r => if r.external_id = some x
            then applyUpdate now (toCanon now rec) r else r)),
          extIds_map_pres _ (fun r => by
            by_cases hr : r.external_id = some x
            · rw [if_pos hr, applyUpdate_external_id]
            · rw [if_neg hr]) db,
          List.map_map]
        have hnew : newRows now (rec :: rest) (extIds db)
            = newRows now rest (extIds db) := by
          simp only [newRows, hid]
          rw [if_pos hmem]
        rw [hnew]
        congr 1
        apply List.map_congr_left
        intro r _
        show updFun now rest (if r.external_id = some x
          then applyUpdate now (toCanon now rec) r else r)
            = updFun now (rec :: rest) r
        cases hr : r.external_id with
        | none =>
          rw [if_neg (by simp), updFun_eq_none now rest r hr,
            updFun_eq_none now (rec :: rest) r hr]
        | some y =>
          by_cases hy : y = x
          · subst hy
            rw [if_pos rfl,
              updFun_eq_some now rest _ y (by rw [applyUpdate_external_id, hr]),
              updFun_eq_some now (rec :: rest) r y hr,
              lastFor_cons_eq rec rest y hid]
            cases hl : lastFor rest y with
            | some rec' =>
              simp only [hl, Option.getD_some]
              rw [applyUpdate_applyUpdate]
            | none => simp only [hl, Option.getD_none]
          · rw [if_neg (by simp [hy]), updFun_eq_some now rest r y hr,
              updFun_eq_some now (rec :: rest) r y hr,
              lastFor_cons_ne rec rest y (by rw [hid]; simp [Ne.symm hy])]
      · rw [upsert_of_id now db rec x hid, if_neg hmem,
          ih (db ++ [toCanon now rec]),
          extIds_append_some db _ x (by rw [toCanon_external_id, hid]),
          List.map_append]
        have h1 : updFun now rest (toCanon now rec)
            = toCanon now ((lastFor rest x).getD rec) := by
          rw [updFun_eq_some now rest _ x (by rw [toCanon_external_id, hid])]
          cases hl : lastFor rest x with
          | none => simp only [hl, Option.getD_none]
          | some rec' =>
            simp only [hl, Option.getD_some]
            exact applyUpdate_toCanon_self now rec rec'
              (by rw [hid, lastFor_id rest x rec' hl])
        have h2 : ∀ r ∈ db, updFun now (rec :: rest) r = updFun now rest r := by
          intro r hrdb
          cases hr : r.external_id with
          | none => rw [updFun_eq_none now _ r hr, updFun_eq_none now _ r hr]
          | some y =>
            have hy : y ≠ x := by
              intro he
              subst he
              exact hmem ((mem_extIds db y).2 ⟨r, hrdb, hr⟩)
            rw [updFun_eq_some now _ r y hr, updFun_eq_some now _ r y hr,
              lastFor_cons_ne rec rest y (by rw [hid]; simp [Ne.symm hy])]
        have hnewc : newRows now rest (extIds db ++ [x])
            = newRows now rest (x :: extIds db) :=
          newRows_congr now rest _ _ (fun y => by simp [or_comm])
        simp only [newRows, hid]
        rw [if_neg hmem, List.map_congr_left h2, List.map_cons, List.map_nil,
          h1, hnewc, List.append_assoc]
        rfl

end MediaVault

namespace MediaVault

theorem extIds_cons (r : CanonRow) (rows : List CanonRow) :
    extIds (r :: rows) = match r.external_id with
      | some y => y :: extIds rows
      | none => extIds rows := by
  unfold extIds
  rw [List.filterMap_cons]
  cases r.external_id <;> rfl

theorem updFun_eq_found (now : Nat) (st : List StagRow) (r : CanonRow)
    (x : String) (rec : StagRow) (hr : r.external_id = some x)
    (hl : lastFor st x = some rec) :
    updFun now st r = applyUpdate now (toCanon now rec) r := by
  unfold updFun
  rw [hr]
  show (match lastFor st x with
    | some rec => applyUpdate now (toCanon now rec) r
    | none => r) = applyUpdate now (toCanon now rec) r
  rw [hl]

theorem updFun_eq_notfound (now : Nat) (st : List StagRow) (r : CanonRow)
    (x : String) (hr : r.external_id = some x) (hl : lastFor st x = none) :
    updFun now st r = r := by
  unfold updFun
  rw [hr]
  show (match lastFor st x with
    | some rec => applyUpdate now (toCanon now rec) r
    | none => r) = r
  rw [hl]

theorem lastFor_cons_of_lastFor (rec : StagRow) (rest : List StagRow)
    (x : String) (rec'' : StagRow) (h : lastFor rest x = some rec'') :
    lastFor (rec :: rest) x = some rec'' := by
  by_cases hid : rec.id = some x
  · rw [lastFor_cons_eq rec rest x hid, h]
    rfl
  · rw [lastFor_cons_ne rec rest x hid]
    exact h

theorem getD_id_of_lastFor (rest : List StagRow) (x : String) (rec : StagRow)
    (h : rec.id = some x) : ((lastFor rest x).getD rec).id = some x := by
  cases hl : lastFor rest x with
  | none => simpa using h
  | some rec' => simpa using lastFor_id rest x rec' hl

/-- Every id carried by the staging list ends up present after the run
(either it was present, or a new row carries it). -/
theorem mem_newRows_extIds (now : Nat) :
    ∀ (st : List StagRow) (pres : List String) (x : String),
      (∃ rec ∈ st, rec.id = some x) →
      x ∈ pres ∨ x ∈ extIds (newRows now st pres) := by
  intro st
  induction st with
  | nil =>
    rintro pres x ⟨rec, hmem, _⟩
    simp at hmem
  | cons rec rest ih =>
    rintro pres x ⟨rec0, hmem, hid0⟩
    rcases List.mem_cons.1 hmem with heq | hmem'
    · subst heq
      by_cases hx : x ∈ pres
      · exact Or.inl hx
      · right
        simp only [newRows, hid0, if_neg hx]
        rw [extIds_cons, toCanon_external_id, getD_id_of_lastFor rest x rec0 hid0]
        exact List.mem_cons_self x _
    · cases hid : rec.id with
      | none =>
        simp only [newRows, hid]
        rcases ih pres x ⟨rec0, hmem', hid0⟩ with hp | hn
        · exact Or.inl hp
        · right
          rw [extIds_cons, toCanon_external_id, hid]
          exact hn
      | some x' =>
        by_cases hx' : x' ∈ pres
        · simp only [newRows, hid, if_pos hx']
          exact ih pres x ⟨rec0, hmem', hid0⟩
        · simp only [newRows, hid, if_neg hx']
          rcases ih (x' :: pres) x ⟨rec0, hmem', hid0⟩ with hp | hn
          · rcases List.mem_cons.1 hp with heq2 | hp'
            · subst heq2
              right
              rw [extIds_cons, toCanon_external_id, getD_id_of_lastFor rest x rec hid]
              exact List.mem_cons_self x _
            · exact Or.inl hp'
          · right
            rw [extIds_cons, toCanon_external_id, getD_id_of_lastFor rest x' rec hid]
            exact List.mem_cons_of_mem x' hn

theorem newRows_eq_nil (now : Nat) :
    ∀ (st : List StagRow) (pres : List String),
      (∀ rec ∈ st, ∃ x, rec.id = some x ∧ x ∈ pres) →
      newRows now st pres = [] := by
  intro st
  induction st with
  | nil => intro pres _; rfl
  | cons rec rest ih =>
    intro pres h
    obtain ⟨x, hid, hx⟩ := h rec (List.mem_cons_self rec rest)
    simp only [newRows, hid, if_pos hx]
    exact ih pres (fun r hr => h r (List.mem_cons_of_mem rec hr))

theorem extIds_mergeMedia (now : Nat) (db : List CanonRow) (st : List StagRow) :
    extIds (mergeMedia now db st)
      = extIds db ++ extIds (newRows now st (extIds db)) := by
  rw [mergeMedia_spec now st db]
  unfold extIds
  rw [List.filterMap_append]
  have := extIds_map_pres (updFun now st) (updFun_external_id now st) db
  unfold extIds at this
  rw [this]

/-- Where the appended rows come from: a null-id staging row, or the last
staging row for a fresh id. -/
theorem newRows_elem (now : Nat) :
    ∀ (st : List StagRow) (pres : List String) (r : CanonRow),
      r ∈ newRows now st pres →
      (∃ rec ∈ st, rec.id = none ∧ r = toCanon now rec) ∨
      (∃ x rec', lastFor st x = some rec' ∧ r = toCanon now rec') := by
  intro st
  induction st with
  | nil =>
    intro pres r hr
    simp [newRows] at hr
  | cons rec rest ih =>
    intro pres r hr
    have lift : (∃ rec0 ∈ rest, rec0.id = none ∧ r = toCanon now rec0) ∨
        (∃ x rec', lastFor rest x = some rec' ∧ r = toCanon now rec') →
        (∃ rec0 ∈ rec :: rest, rec0.id = none ∧ r = toCanon now rec0) ∨
        (∃ x rec', lastFor (rec :: rest) x = some rec' ∧ r = toCanon now rec') := by
      rintro (⟨rec0, hm, hn, he⟩ | ⟨x, rec', hl, he⟩)
      · exact Or.inl ⟨rec0, List.mem_cons_of_mem rec hm, hn, he⟩
      · exact Or.inr ⟨x, rec', lastFor_cons_of_lastFor rec rest x rec' hl, he⟩
    cases hid : rec.id with
    | none =>
      simp only [newRows, hid] at hr
      rcases List.mem_cons.1 hr with heq | hr'
      · exact Or.inl ⟨rec, List.mem_cons_self rec rest, hid, heq⟩
      · exact lift (ih pres r hr')
    | some x' =>
      by_cases hx' : x' ∈ pres
      · simp only [newRows, hid, if_pos hx'] at hr
        exact lift (ih pres r hr)
      · simp only [newRows, hid, if_neg hx'] at hr
        rcases List.mem_cons.1 hr with heq | hr'
        · refine Or.inr ⟨x', (lastFor rest x').getD rec, ?_, heq⟩
          rw [lastFor_cons_eq rec rest x' hid]
        · exact lift (ih (x' :: pres) r hr')

theorem clearUpdated_applyUpdate_toCanon (n1 n2 : Nat) (rec : StagRow)
    (r : CanonRow) :
    clearUpdatedAt (applyUpdate n2 (toCanon n2 rec) r)
      = clearUpdatedAt (applyUpdate n1 (toCanon n1 rec) r) := rfl

theorem clearUpdated_applyUpdate_toCanon_self (n1 n2 : Nat) (rec : StagRow) :
    clearUpdatedAt (applyUpdate n2 (toCanon n2 rec) (toCanon n1 rec))
      = clearUpdatedAt (toCanon n1 rec) := rfl

/-- The second identical run only rewrites every affected row with the
same recomputed values: projected past `updated_at`, nothing changes. -/
theorem mergeMedia_idempotent (now1 now2 : Nat) (db : List CanonRow)
    (st : List StagRow) (h : ∀ rec ∈ st, rec.id ≠ none) :
    (mergeMedia now2 (mergeMedia now1 db st) st).map clearUpdatedAt
      = (mergeMedia now1 db st).map clearUpdatedAt := by
  have hpres : ∀ rec ∈ st, ∃ x, rec.id = some x ∧
      x ∈ extIds (mergeMedia now1 db st) := by
    intro rec hr
    cases hid : rec.id with
    | none => exact absurd hid (h rec hr)
    | some x =>
      refine ⟨x, rfl, ?_⟩
      rw [extIds_mergeMedia now1 db st, List.mem_append]
      exact mem_newRows_extIds now1 st (extIds db) x ⟨rec, hr, hid⟩
  rw [mergeMedia_spec now2 st (mergeMedia now1 db st),
    newRows_eq_nil now2 st _ hpres, List.append_nil, List.map_map]
  apply List.map_congr_left
  intro r hrM
  show clearUpdatedAt (updFun now2 st r) = clearUpdatedAt r
  rw [mergeMedia_spec now1 st db, List.mem_append] at hrM
  rcases hrM with hmap | hnew
  · rw [List.mem_map] at hmap
    obtain ⟨r0, _, rfl⟩ := hmap
    cases hr0 : r0.external_id with
    | none =>
      rw [updFun_eq_none now1 st r0 hr0, updFun_eq_none now2 st r0 hr0]
    | some y =>
      cases hl : lastFor st y with
      | none =>
        rw [updFun_eq_notfound now1 st r0 y hr0 hl,
          updFun_eq_notfound now2 st r0 y hr0 hl]
      | some rec' =>
        rw [updFun_eq_found now1 st r0 y rec' hr0 hl,
          updFun_eq_found now2 st (applyUpdate now1 (toCanon now1 rec') r0) y rec'
            (by rw [applyUpdate_external_id, hr0]) hl,
          applyUpdate_applyUpdate]
        exact clearUpdated_applyUpdate_toCanon now1 now2 rec' r0
  · rcases newRows_elem now1 st (extIds db) r hnew with ⟨rec0, hm, hn, rfl⟩ | ⟨x, rec', hl, rfl⟩
    · exact absurd hn (h rec0 hm)
    · have hid' : (toCanon now1 rec').external_id = some x := by
        rw [toCanon_external_id]
        exact lastFor_id st x rec' hl
      rw [updFun_eq_found now2 st (toCanon now1 rec') x rec' hid' hl]
      exact clearUpdated_applyUpdate_toCanon_self now1 now2 rec'

end MediaVault

namespace MediaVault

/-- C3 (counterexample to the claim as stated): importing the one-record
input whose row has no `id` twice yields two canonical rows where one run
yields one — the second run adds a duplicate instead of being a no-op,
because a null `external_id` never conflicts. -/
theorem c3_counterexample :
    (importRun 1 emptyDB [[("title", JVal.str "T")]]).1.media.length = 1
    ∧ (importRun 2 (importRun 1 emptyDB [[("title", JVal.str "T")]]).1
        [[("title", JVal.str "T")]]).1.media.length = 2 := by
  constructor <;> rfl

/-- C3 (amended): for every input in which every row carries a non-absent
(non-null) `externalId`, importing the same input twice yields the same
canonical rows as importing it once up to the `updated_at` refresh — same
row count, same field values, same processed count, same staging state. -/
theorem c3_idempotent_import (now1 now2 : Nat) (db : DB) (input : List Record)
    (h : ∀ r ∈ input, getVal r "id" ≠ none) :
    ((importRun now2 (importRun now1 db input).1 input).1.media.map clearUpdatedAt
        = (importRun now1 db input).1.media.map clearUpdatedAt)
    ∧ (importRun now2 (importRun now1 db input).1 input).1.media.length
        = (importRun now1 db input).1.media.length
    ∧ (importRun now2 (importRun now1 db input).1 input).2
        = (importRun now1 db input).2
    ∧ (importRun now2 (importRun now1 db input).1 input).1.staging
        = (importRun now1 db input).1.staging := by
  have hst : ∀ rec ∈ input.map toStagRow, rec.id ≠ none := by
    intro rec hr
    rw [List.mem_map] at hr
    obtain ⟨r, hrin, rfl⟩ := hr
    intro hnone
    apply h r hrin
    simpa [toStagRow, getText, Option.map_eq_none'] using hnone
  have hmedia1 : (importRun now1 db input).1.media
      = mergeMedia now1 db.media (input.map toStagRow) := by
    show (importMediaCsv now1 db.media (input.map toStagRow)).1 = _
    exact importMediaCsv_fst now1 db.media (input.map toStagRow)
  have hmedia2 : (importRun now2 (importRun now1 db input).1 input).1.media
      = mergeMedia now2 (importRun now1 db input).1.media (input.map toStagRow) := by
    show (importMediaCsv now2 (importRun now1 db input).1.media
      (input.map toStagRow)).1 = _
    exact importMediaCsv_fst now2 _ _
  have hmain : (importRun now2 (importRun now1 db input).1 input).1.media.map
      clearUpdatedAt = (importRun now1 db input).1.media.map clearUpdatedAt := by
    rw [hmedia2, hmedia1]
    exact mergeMedia_idempotent now1 now2 db.media (input.map toStagRow) hst
  refine ⟨hmain, ?_, ?_, rfl⟩
  · have := congrArg List.length hmain
    simpa using this
  · show (importMediaCsv now2 _ (input.map toStagRow)).2
      = (importMediaCsv now1 _ (input.map toStagRow)).2
    rw [importMediaCsv_count, importMediaCsv_count]

theorem c3_idempotent_import_witness :
    (∀ r ∈ [[("id", JVal.str "x"), ("title", JVal.str "One")]],
      getVal r "id" ≠ none)
    ∧ ((importRun 2 (importRun 1 emptyDB
          [[("id", JVal.str "x"), ("title", JVal.str "One")]]).1
          [[("id", JVal.str "x"), ("title", JVal.str "One")]]).1.media.map
          clearUpdatedAt
        = (importRun 1 emptyDB
            [[("id", JVal.str "x"), ("title", JVal.str "One")]]).1.media.map
            clearUpdatedAt) := by
  have h : ∀ r ∈ [[("id", JVal.str "x"), ("title", JVal.str "One")]],
      getVal r "id" ≠ none := by
    intro r hr
    rw [List.mem_singleton] at hr
    subst hr
    intro hcon
    simp [getVal, lookupKey] at hcon
  exact ⟨h, (c3_idempotent_import 1 2 emptyDB
    [[("id", JVal.str "x"), ("title", JVal.str "One")]] h).1⟩

end MediaVault

namespace MediaVault

/-! ## Row counting by external id, for the upsert-overwrite claim -/

def countX (db : List CanonRow) (x : String) : Nat :=
  (db.filter (fun r => r.external_id = some x)).length

theorem countX_cons (r : CanonRow) (rows : List CanonRow) (x : String) :
    countX (r :: rows) x
      = (if r.external_id = some x then 1 else 0) + countX rows x := by
  by_cases h : r.external_id = some x
  · rw [countX, List.filter_cons_of_pos (by simpa using h), if_pos h]
    simp [countX]
    omega
  · rw [countX, List.filter_cons_of_neg (by simpa using h), if_neg h]
    simp [countX]

theorem countX_append (a b : List CanonRow) (x : String) :
    countX (a ++ b) x = countX a x + countX b x := by
  simp [countX, List.filter_append]

theorem countX_map_pres (f : CanonRow → CanonRow)
    (hf : ∀ r, (f r).external_id = r.external_id) (db : List CanonRow)
    (x : String) : countX (db.map f) x = countX db x := by
  induction db with
  | nil => rfl
  | cons r rest ih =>
    rw [List.map_cons, countX_cons, countX_cons, hf r, ih]

theorem countX_pos_of_mem (db : List CanonRow) (x : String) (r : CanonRow)
    (hr : r ∈ db) (he : r.external_id = some x) : 1 ≤ countX db x := by
  have h1 : r ∈ db.filter (fun r => r.external_id = some x) :=
    List.mem_filter.2 ⟨hr, by simpa using he⟩
  have h2 := List.length_pos.2 (List.ne_nil_of_mem h1)
  unfold countX
  omega

theorem countX_eq_zero_of_not_mem (db : List CanonRow) (x : String)
    (h : x ∉ extIds db) : countX db x = 0 := by
  rw [countX, List.length_eq_zero, List.filter_eq_nil_iff]
  intro r hr
  simp only [decide_eq_true_eq]
  intro he
  exact h ((mem_extIds db x).2 ⟨r, hr, he⟩)

theorem mem_of_countX_pos (db : List CanonRow) (x : String)
    (h : 0 < countX db x) : x ∈ extIds db := by
  rw [countX] at h
  obtain ⟨r, hr⟩ := List.exists_mem_of_length_pos h
  have := List.mem_filter.1 hr
  exact (mem_extIds db x).2 ⟨r, this.1, by simpa using this.2⟩

theorem countX_newRows_zero (now : Nat) :
    ∀ (st : List StagRow) (pres : List String) (x : String), x ∈ pres →
      countX (newRows now st pres) x = 0 := by
  intro st
  induction st with
  | nil => intro pres x _; rfl
  | cons rec rest ih =>
    intro pres x hx
    cases hid : rec.id with
    | none =>
      simp only [newRows, hid]
      rw [countX_cons, toCanon_external_id, hid, if_neg (by simp), ih pres x hx]
    | some x' =>
      by_cases hx' : x' ∈ pres
      · simp only [newRows, hid, if_pos hx']
        exact ih pres x hx
      · have hne : x' ≠ x := fun he => hx' (he ▸ hx)
        simp only [newRows, hid, if_neg hx']
        rw [countX_cons, toCanon_external_id,
          getD_id_of_lastFor rest x' rec hid, if_neg (by simp [hne]),
          ih (x' :: pres) x (List.mem_cons_of_mem x' hx)]

theorem countX_newRows_one (now : Nat) :
    ∀ (st : List StagRow) (pres : List String) (x : String), x ∉ pres →
      (∃ rec ∈ st, rec.id = some x) →
      countX (newRows now st pres) x = 1 := by
  intro st
  induction st with
  | nil =>
    rintro pres x _ ⟨rec, hmem, _⟩
    simp at hmem
  | cons rec rest ih =>
    rintro pres x hx ⟨rec0, hmem, hid0⟩
    cases hid : rec.id with
    | none =>
      have hmem' : rec0 ∈ rest := by
        rcases List.mem_cons.1 hmem with heq | h'
        · subst heq
          rw [hid0] at hid
          cases hid
        · exact h'
      simp only [newRows, hid]
      rw [countX_cons, toCanon_external_id, hid, if_neg (by simp),
        ih pres x hx ⟨rec0, hmem', hid0⟩]
    | some x' =>
      by_cases hxx : x' = x
      · subst hxx
        by_cases hx' : x' ∈ pres
        · exact absurd hx' hx
        · simp only [newRows, hid, if_neg hx']
          rw [countX_cons, toCanon_external_id,
            getD_id_of_lastFor rest x' rec hid, if_pos rfl,
            countX_newRows_zero now rest (x' :: pres) x'
              (List.mem_cons_self x' pres)]
      · have hmem' : rec0 ∈ rest := by
          rcases List.mem_cons.1 hmem with heq | h'
          · subst heq
            rw [hid0] at hid
            exact absurd (Option.some.inj hid).symm hxx
          · exact h'
        by_cases hx' : x' ∈ pres
        · simp only [newRows, hid, if_pos hx']
          exact ih pres x hx ⟨rec0, hmem', hid0⟩
        · have hxp : x ∉ x' :: pres := by
            intro hmm
            rcases List.mem_cons.1 hmm with he | hp
            · exact hxx he.symm
            · exact hx hp
          simp only [newRows, hid, if_neg hx']
          rw [countX_cons, toCanon_external_id,
            getD_id_of_lastFor rest x' rec hid, if_neg (by simp [hxx]),
            ih (x' :: pres) x hxp ⟨rec0, hmem', hid0⟩]

theorem clearCreated_applyUpdate (now : Nat) (rec : StagRow) (r : CanonRow)
    (h : r.external_id = rec.id) :
    clearCreatedAt (applyUpdate now (toCanon now rec) r)
      = clearCreatedAt (toCanon now rec) := by
  unfold applyUpdate clearCreatedAt
  rw [h]
  rfl

end MediaVault

namespace MediaVault

/-- Two runs both carrying id `x` leave exactly one row for `x`, holding
the later run's (last-occurrence) values for every mapped column. -/
theorem mergeMedia_overwrite (now1 now2 : Nat) (db : List CanonRow)
    (st1 st2 : List StagRow) (x : String) (rec2 : StagRow)
    (hdb : countX db x ≤ 1)
    (h1 : ∃ rec ∈ st1, rec.id = some x)
    (h2 : lastFor st2 x = some rec2) :
    countX (mergeMedia now2 (mergeMedia now1 db st1) st2) x = 1
    ∧ ∀ r ∈ mergeMedia now2 (mergeMedia now1 db st1) st2,
        r.external_id = some x →
        clearCreatedAt r = clearCreatedAt (toCanon now2 rec2) := by
  have hcount1 : countX (mergeMedia now1 db st1) x = 1 := by
    rw [mergeMedia_spec now1 st1 db, countX_append,
      countX_map_pres (updFun now1 st1) (updFun_external_id now1 st1) db x]
    by_cases hmem : x ∈ extIds db
    · rw [countX_newRows_zero now1 st1 (extIds db) x hmem]
      obtain ⟨r, hr, he⟩ := (mem_extIds db x).1 hmem
      have := countX_pos_of_mem db x r hr he
      omega
    · rw [countX_eq_zero_of_not_mem db x hmem,
        countX_newRows_one now1 st1 (extIds db) x hmem h1]
  have hmemM1 : x ∈ extIds (mergeMedia now1 db st1) :=
    mem_of_countX_pos _ x (by omega)
  constructor
  · rw [mergeMedia_spec now2 st2 (mergeMedia now1 db st1), countX_append,
      countX_map_pres (updFun now2 st2) (updFun_external_id now2 st2) _ x,
      countX_newRows_zero now2 st2 _ x hmemM1, hcount1]
  · intro r hr hre
    rw [mergeMedia_spec now2 st2 (mergeMedia now1 db st1),
      List.mem_append] at hr
    rcases hr with hmap | hnew
    · obtain ⟨r1, _, rfl⟩ := List.mem_map.1 hmap
      have hre1 : r1.external_id = some x := by
        rw [updFun_external_id] at hre
        exact hre
      rw [updFun_eq_found now2 st2 r1 x rec2 hre1 h2]
      exact clearCreated_applyUpdate now2 rec2 r1
        (by rw [hre1, lastFor_id st2 x rec2 h2])
    · exfalso
      have hz := countX_newRows_zero now2 st2 _ x hmemM1
      have hpos := countX_pos_of_mem _ x r hnew hre
      omega

/-- C2: last-write-wins upsert across runs — when two import runs both
carry a row with the same non-absent `externalId`, the canonical store
ends with exactly one row for that id, and its mapped columns equal the
later run's values (those of the last staging row carrying the id in the
second run); only `created_at`, which the upsert never overwrites, is kept
from the existing row. -/
theorem c2_upsert_last_write_wins (now1 now2 : Nat) (db : DB)
    (in1 in2 : List Record) (x : String) (rec2 : StagRow)
    (hdb : countX db.media x ≤ 1)
    (h1 : ∃ r ∈ in1, (toStagRow r).id = some x)
    (h2 : lastFor (in2.map toStagRow) x = some rec2) :
    countX (importRun now2 (importRun now1 db in1).1 in2).1.media x = 1
    ∧ ∀ r ∈ (importRun now2 (importRun now1 db in1).1 in2).1.media,
        r.external_id = some x →
        clearCreatedAt r = clearCreatedAt (toCanon now2 rec2) := by
  have hmedia1 : (importRun now1 db in1).1.media
      = mergeMedia now1 db.media (in1.map toStagRow) := by
    show (importMediaCsv now1 db.media (in1.map toStagRow)).1 = _
    exact importMediaCsv_fst now1 db.media (in1.map toStagRow)
  have hmedia2 : (importRun now2 (importRun now1 db in1).1 in2).1.media
      = mergeMedia now2 (importRun now1 db in1).1.media (in2.map toStagRow) := by
    show (importMediaCsv now2 (importRun now1 db in1).1.media
      (in2.map toStagRow)).1 = _
    exact importMediaCsv_fst now2 _ _
  have h1' : ∃ rec ∈ in1.map toStagRow, rec.id = some x := by
    obtain ⟨r, hr, hid⟩ := h1
    exact ⟨toStagRow r, List.mem_map_of_mem toStagRow hr, hid⟩
  have := mergeMedia_overwrite now1 now2 db.media (in1.map toStagRow)
    (in2.map toStagRow) x rec2 hdb h1' h2
  rw [hmedia2, hmedia1]
  exact this

theorem c2_upsert_last_write_wins_witness :
    countX emptyDB.media "x" ≤ 1
    ∧ (∃ r ∈ [[("id", JVal.str "x"), ("title", JVal.str "One")]],
        (toStagRow r).id = some "x")
    ∧ lastFor ([[("id", JVal.str "x"), ("title", JVal.str "Two")]].map toStagRow)
        "x" = some (toStagRow [("id", JVal.str "x"), ("title", JVal.str "Two")])
    ∧ countX (importRun 2 (importRun 1 emptyDB
        [[("id", JVal.str "x"), ("title", JVal.str "One")]]).1
        [[("id", JVal.str "x"), ("title", JVal.str "Two")]]).1.media "x" = 1
    ∧ (importRun 2 (importRun 1 emptyDB
        [[("id", JVal.str "x"), ("title", JVal.str "One")]]).1
        [[("id", JVal.str "x"), ("title", JVal.str "Two")]]).1.media.map
        (fun r => r.title) = [some "Two"] := by
  have h2 : lastFor ([[("id", JVal.str "x"), ("title", JVal.str "Two")]].map
      toStagRow) "x"
      = some (toStagRow [("id", JVal.str "x"), ("title", JVal.str "Two")]) := rfl
  have h := c2_upsert_last_write_wins 1 2 emptyDB
    [[("id", JVal.str "x"), ("title", JVal.str "One")]]
    [[("id", JVal.str "x"), ("title", JVal.str "Two")]] "x"
    (toStagRow [("id", JVal.str "x"), ("title", JVal.str "Two")])
    (by decide)
    ⟨[("id", JVal.str "x"), ("title", JVal.str "One")],
      List.mem_singleton.2 rfl, by decide⟩
    h2
  exact ⟨by decide, ⟨_, List.mem_singleton.2 rfl, by decide⟩, h2, h.1, by decide⟩

end MediaVault

namespace MediaVault

/-! ## Survival in the residual document (Row Reshaper losslessness) -/

mutual

/-- Every node of a JSON value (the value itself and all nested values). -/
def jNodes : JVal → List JVal
  | .arr xs => JVal.arr xs :: jNodesList xs
  | .obj fs => JVal.obj fs :: jNodesPairs fs
  | v => [v]

def jNodesList : List JVal → List JVal
  | [] => []
  | x :: xs => jNodes x ++ jNodesList xs

def jNodesPairs : List (String × JVal) → List JVal
  | [] => []
  | p :: ps => jNodes p.2 ++ jNodesPairs ps

end

/-- A value survives in the residual document when it occurs somewhere
(under some path) in the document. -/
def survives (res : Record) (v : JVal) : Prop := v ∈ jNodes (JVal.obj res)

theorem self_mem_jNodes (v : JVal) : v ∈ jNodes v := by
  cases v <;> simp [jNodes]

theorem jNodes_subset_pairs {fs : List (String × JVal)} {k : String} {v : JVal}
    (h : (k, v) ∈ fs) : ∀ w ∈ jNodes v, w ∈ jNodesPairs fs := by
  induction fs with
  | nil => cases h
  | cons p ps ih =>
    intro w hw
    rcases List.mem_cons.1 h with heq | h'
    · subst heq
      simp only [jNodesPairs, List.mem_append]
      exact Or.inl hw
    · simp only [jNodesPairs, List.mem_append]
      exact Or.inr (ih h' w hw)

theorem lookupKey_mem {r : Record} {k : String} {v : JVal}
    (h : lookupKey r k = some v) : (k, v) ∈ r := by
  unfold lookupKey at h
  cases hf : r.find? (fun p => p.1 = k) with
  | none => rw [hf] at h; cases h
  | some p =>
    obtain ⟨p1, p2⟩ := p
    rw [hf] at h
    simp only [Option.map_some'] at h
    have hv : p2 = v := by simpa using h
    have hk : p1 = k := by simpa using List.find?_some hf
    subst hv
    subst hk
    exact List.mem_of_find?_eq_some hf

theorem survives_of_lookup {res : Record} {k : String} {v : JVal}
    (h : lookupKey res k = some v) : survives res v := by
  unfold survives
  simp only [jNodes, List.mem_cons]
  exact Or.inr (jNodes_subset_pairs (lookupKey_mem h) v (self_mem_jNodes v))

theorem survives_of_lookup_bucket {res bucket : Record} {kb sfx : String}
    {v : JVal} (h1 : lookupKey res kb = some (JVal.obj bucket))
    (h2 : lookupKey bucket sfx = some v) : survives res v := by
  unfold survives
  simp only [jNodes, List.mem_cons]
  refine Or.inr (jNodes_subset_pairs (lookupKey_mem h1) v ?_)
  simp only [jNodes, List.mem_cons]
  exact Or.inr (jNodes_subset_pairs (lookupKey_mem h2) v (self_mem_jNodes v))

/-- C7 (counterexample to the claim as stated): the input record with the
single key `content[0]` — which starts with `content[` but fails the full
`content[n].field` regex — is dropped entirely by `mungeRaw`: its value
survives nowhere in the residual document, which is empty. -/
theorem c7_counterexample :
    ("content[0]", JVal.str "x") ∈ ([("content[0]", JVal.str "x")] : Record)
    ∧ mungeRaw [("content[0]", JVal.str "x")] = []
    ∧ ¬ survives (mungeRaw [("content[0]", JVal.str "x")]) (JVal.str "x") := by
  have hm : mungeRaw [("content[0]", JVal.str "x")] = [] := rfl
  refine ⟨List.mem_singleton.2 rfl, hm, ?_⟩
  rw [hm]
  unfold survives
  intro hsurv
  simp [jNodes, jNodesPairs] at hsurv

end MediaVault

namespace MediaVault

theorem lookupKey_cons (p : String × JVal) (r : Record) (k : String) :
    lookupKey (p :: r) k = if p.1 = k then some p.2 else lookupKey r k := by
  unfold lookupKey
  by_cases h : p.1 = k
  · rw [List.find?_cons_of_pos _ (by simpa using h), if_pos h]
    rfl
  · rw [List.find?_cons_of_neg _ (by simpa using h), if_neg h]

theorem objSet_lookup_self (r : Record) (k : String) (v : JVal) :
    lookupKey (objSet r k v) k = some v := by
  unfold objSet
  by_cases hany : r.any (fun p => p.1 = k) = true
  · rw [if_pos hany]
    obtain ⟨p, hp, hpk⟩ := List.any_eq_true.1 hany
    have hpk' : p.1 = k := by simpa using hpk
    clear hany hpk
    induction r with
    | nil => cases hp
    | cons q rest ih =>
      rw [List.map_cons]
      by_cases hq : q.1 = k
      · rw [if_pos hq, lookupKey_cons]
        simp
      · rw [if_neg hq, lookupKey_cons, if_neg hq]
        rcases List.mem_cons.1 hp with heq | hp'
        · subst heq
          exact absurd hpk' hq
        · exact ih hp'
  · rw [if_neg hany]
    have hall : ∀ p ∈ r, p.1 ≠ k := by
      intro p hp hk
      exact hany (List.any_eq_true.2 ⟨p, hp, by simpa using hk⟩)
    clear hany
    induction r with
    | nil => simp [lookupKey_cons]
    | cons q rest ih =>
      rw [List.cons_append, lookupKey_cons,
        if_neg (hall q (List.mem_cons_self q rest))]
      exact ih (fun p hp => hall p (List.mem_cons_of_mem q hp))

theorem objSet_lookup_ne (r : Record) (k' : String) (v' : JVal) (k : String)
    (h : k' ≠ k) : lookupKey (objSet r k' v') k = lookupKey r k := by
  unfold objSet
  split
  · next hcond =>
    clear hcond
    induction r with
    | nil => rfl
    | cons q rest ih =>
      rw [List.map_cons, lookupKey_cons, lookupKey_cons]
      by_cases hq : q.1 = k'
      · rw [if_pos hq]
        have hqk : ¬ q.1 = k := by rw [hq]; exact h
        rw [if_neg h, if_neg hqk]
        exact ih
      · rw [if_neg hq]
        by_cases hqk : q.1 = k
        · rw [if_pos hqk, if_pos hqk]
        · rw [if_neg hqk, if_neg hqk]
          exact ih
  · next hcond =>
    clear hcond
    induction r with
    | nil =>
      show lookupKey [(k', v')] k = lookupKey [] k
      rw [lookupKey_cons, if_neg h]
    | cons q rest ih =>
      rw [List.cons_append, lookupKey_cons, lookupKey_cons]
      by_cases hqk : q.1 = k
      · rw [if_pos hqk, if_pos hqk]
      · rw [if_neg hqk, if_neg hqk]
        exact ih

theorem lookup_some_not_empty {r : Record} {k : String} {v : JVal}
    (h : lookupKey r k = some v) : r.isEmpty = false := by
  cases r with
  | nil => cases h
  | cons p rest => rfl

theorem listStarts_append :
    ∀ (p l : List Char), listStarts p l = true → l = p ++ l.drop p.length := by
  intro p
  induction p with
  | nil => intro l _; simp
  | cons c cs ih =>
    intro l h
    cases l with
    | nil => cases h
    | cons d ds =>
      have h2 : c = d ∧ listStarts cs ds = true := by
        simpa [listStarts] using h
      obtain ⟨rfl, h3⟩ := h2
      simp only [List.cons_append, List.length_cons, List.drop_succ_cons,
        List.cons.injEq, true_and]
      exact ih ds h3

theorem strStarts_drop_inj (p a b : String) (n : Nat)
    (hn : p.toList.length = n) (h1 : strStarts a p = true)
    (h2 : strStarts b p = true) (h3 : strDrop a n = strDrop b n) : a = b := by
  have ha := listStarts_append p.toList a.toList h1
  have hb := listStarts_append p.toList b.toList h2
  unfold strDrop at h3
  have hd : a.toList.drop n = b.toList.drop n := congrArg String.data h3
  rw [hn] at ha hb
  have htl : a.toList = b.toList := by rw [ha, hb, hd]
  cases a
  cases b
  exact congrArg String.mk htl

end MediaVault


namespace MediaVault

/-! ## Effect of one classification step on each component -/

theorem mungeStep_raw_cases (st : MungeState) (p : String × JVal) :
    (mungeStep st p).raw = st.raw ∨
      (mungeStep st p).raw = objSet st.raw p.1 p.2 := by
  simp only [mungeStep]
  by_cases h1 : strStarts p.1 "content[" = true
  · rw [if_pos h1]
    cases matchIndexedPath "content" p.1 <;> exact Or.inl rfl
  · rw [if_neg h1]
    by_cases h2 : strStarts p.1 "thumbnails[" = true
    · rw [if_pos h2]
      cases matchIndexedPath "thumbnails" p.1 <;> exact Or.inl rfl
    · rw [if_neg h2]
      by_cases h3 : strStarts p.1 "cbs$" = true
      · rw [if_pos h3]
        exact Or.inl rfl
      · rw [if_neg h3]
        by_cases h4 : strStarts p.1 "ytcp$" = true
        · rw [if_pos h4]
          exact Or.inl rfl
        · rw [if_neg h4]
          by_cases h5 : strStarts p.1 "yt$" = true
          · rw [if_pos h5]
            exact Or.inl rfl
          · rw [if_neg h5]
            by_cases h6 : strStarts p.1 "msn$" = true
            · rw [if_pos h6]
              exact Or.inl rfl
            · rw [if_neg h6]
              by_cases h7 : strStarts p.1 "pl2$" = true
              · rw [if_pos h7]
                exact Or.inl rfl
              · rw [if_neg h7]
                exact Or.inr rfl

theorem mungeStep_cbs_cases (st : MungeState) (p : String × JVal) :
    (mungeStep st p).cbs = st.cbs ∨
      (strStarts p.1 "cbs$" = true ∧
        (mungeStep st p).cbs = objSet st.cbs (strDrop p.1 4) p.2) := by
  simp only [mungeStep]
  by_cases h1 : strStarts p.1 "content[" = true
  · rw [if_pos h1]
    cases matchIndexedPath "content" p.1 <;> exact Or.inl rfl
  · rw [if_neg h1]
    by_cases h2 : strStarts p.1 "thumbnails[" = true
    · rw [if_pos h2]
      cases matchIndexedPath "thumbnails" p.1 <;> exact Or.inl rfl
    · rw [if_neg h2]
      by_cases h3 : strStarts p.1 "cbs$" = true
      · rw [if_pos h3]
        exact Or.inr ⟨h3, rfl⟩
      · rw [if_neg h3]
        by_cases h4 : strStarts p.1 "ytcp$" = true
        · rw [if_pos h4]
          exact Or.inl rfl
        · rw [if_neg h4]
          by_cases h5 : strStarts p.1 "yt$" = true
          · rw [if_pos h5]
            exact Or.inl rfl
          · rw [if_neg h5]
            by_cases h6 : strStarts p.1 "msn$" = true
            · rw [if_pos h6]
              exact Or.inl rfl
            · rw [if_neg h6]
              by_cases h7 : strStarts p.1 "pl2$" = true
              · rw [if_pos h7]
                exact Or.inl rfl
              · rw [if_neg h7]
                exact Or.inl rfl

theorem mungeStep_ytcp_cases (st : MungeState) (p : String × JVal) :
    (mungeStep st p).ytcp = st.ytcp ∨
      (strStarts p.1 "ytcp$" = true ∧
        (mungeStep st p).ytcp = objSet st.ytcp (strDrop p.1 5) p.2) := by
  simp only [mungeStep]
  by_cases h1 : strStarts p.1 "content[" = true
  · rw [if_pos h1]
    cases matchIndexedPath "content" p.1 <;> exact Or.inl rfl
  · rw [if_neg h1]
    by_cases h2 : strStarts p.1 "thumbnails[" = true
    · rw [if_pos h2]
      cases matchIndexedPath "thumbnails" p.1 <;> exact Or.inl rfl
    · rw [if_neg h2]
      by_cases h3 : strStarts p.1 "cbs$" = true
      · rw [if_pos h3]
        exact Or.inl rfl
      · rw [if_neg h3]
        by_cases h4 : strStarts p.1 "ytcp$" = true
        · rw [if_pos h4]
          exact Or.inr ⟨h4, rfl⟩
        · rw [if_neg h4]
          by_cases h5 : strStarts p.1 "yt$" = true
          · rw [if_pos h5]
            exact Or.inl rfl
          · rw [if_neg h5]
            by_cases h6 : strStarts p.1 "msn$" = true
            · rw [if_pos h6]
              exact Or.inl rfl
            · rw [if_neg h6]
              by_cases h7 : strStarts p.1 "pl2$" = true
              · rw [if_pos h7]
                exact Or.inl rfl
              · rw [if_neg h7]
                exact Or.inl rfl

theorem mungeStep_yt_cases (st : MungeState) (p : String × JVal) :
    (mungeStep st p).yt = st.yt ∨
      (strStarts p.1 "yt$" = true ∧
        (mungeStep st p).yt = objSet st.yt (strDrop p.1 3) p.2) := by
  simp only [mungeStep]
  by_cases h1 : strStarts p.1 "content[" = true
  · rw [if_pos h1]
    cases matchIndexedPath "content" p.1 <;> exact Or.inl rfl
  · rw [if_neg h1]
    by_cases h2 : strStarts p.1 "thumbnails[" = true
    · rw [if_pos h2]
      cases matchIndexedPath "thumbnails" p.1 <;> exact Or.inl rfl
    · rw [if_neg h2]
      by_cases h3 : strStarts p.1 "cbs$" = true
      · rw [if_pos h3]
        exact Or.inl rfl
      · rw [if_neg h3]
        by_cases h4 : strStarts p.1 "ytcp$" = true
        · rw [if_pos h4]
          exact Or.inl rfl
        · rw [if_neg h4]
          by_cases h5 : strStarts p.1 "yt$" = true
          · rw [if_pos h5]
            exact Or.inr ⟨h5, rfl⟩
          · rw [if_neg h5]
            by_cases h6 : strStarts p.1 "msn$" = true
            · rw [if_pos h6]
              exact Or.inl rfl
            · rw [if_neg h6]
              by_cases h7 : strStarts p.1 "pl2$" = true
              · rw [if_pos h7]
                exact Or.inl rfl
              · rw [if_neg h7]
                exact Or.inl rfl

theorem mungeStep_msn_cases (st : MungeState) (p : String × JVal) :
    (mungeStep st p).msn = st.msn ∨
      (strStarts p.1 "msn$" = true ∧
        (mungeStep st p).msn = objSet st.msn (strDrop p.1 4) p.2) := by
  simp only [mungeStep]
  by_cases h1 : strStarts p.1 "content[" = true
  · rw [if_pos h1]
    cases matchIndexedPath "content" p.1 <;> exact Or.inl rfl
  · rw [if_neg h1]
    by_cases h2 : strStarts p.1 "thumbnails[" = true
    · rw [if_pos h2]
      cases matchIndexedPath "thumbnails" p.1 <;> exact Or.inl rfl
    · rw [if_neg h2]
      by_cases h3 : strStarts p.1 "cbs$" = true
      · rw [if_pos h3]
        exact Or.inl rfl
      · rw [if_neg h3]
        by_cases h4 : strStarts p.1 "ytcp$" = true
        · rw [if_pos h4]
          exact Or.inl rfl
        · rw [if_neg h4]
          by_cases h5 : strStarts p.1 "yt$" = true
          · rw [if_pos h5]
            exact Or.inl rfl
          · rw [if_neg h5]
            by_cases h6 : strStarts p.1 "msn$" = true
            · rw [if_pos h6]
              exact Or.inr ⟨h6, rfl⟩
            · rw [if_neg h6]
              by_cases h7 : strStarts p.1 "pl2$" = true
              · rw [if_pos h7]
                exact Or.inl rfl
              · rw [if_neg h7]
                exact Or.inl rfl

theorem mungeStep_pl2_cases (st : MungeState) (p : String × JVal) :
    (mungeStep st p).pl2 = st.pl2 ∨
      (strStarts p.1 "pl2$" = true ∧
        (mungeStep st p).pl2 = objSet st.pl2 (strDrop p.1 4) p.2) := by
  simp only [mungeStep]
  by_cases h1 : strStarts p.1 "content[" = true
  · rw [if_pos h1]
    cases matchIndexedPath "content" p.1 <;> exact Or.inl rfl
  · rw [if_neg h1]
    by_cases h2 : strStarts p.1 "thumbnails[" = true
    · rw [if_pos h2]
      cases matchIndexedPath "thumbnails" p.1 <;> exact Or.inl rfl
    · rw [if_neg h2]
      by_cases h3 : strStarts p.1 "cbs$" = true
      · rw [if_pos h3]
        exact Or.inl rfl
      · rw [if_neg h3]
        by_cases h4 : strStarts p.1 "ytcp$" = true
        · rw [if_pos h4]
          exact Or.inl rfl
        · rw [if_neg h4]
          by_cases h5 : strStarts p.1 "yt$" = true
          · rw [if_pos h5]
            exact Or.inl rfl
          · rw [if_neg h5]
            by_cases h6 : strStarts p.1 "msn$" = true
            · rw [if_pos h6]
              exact Or.inl rfl
            · rw [if_neg h6]
              by_cases h7 : strStarts p.1 "pl2$" = true
              · rw [if_pos h7]
                exact Or.inr ⟨h7, rfl⟩
              · rw [if_neg h7]
                exact Or.inl rfl

theorem foldl_mungeStep_raw (r2 : List (String × JVal)) :
    ∀ (st : MungeState) (k : String) (v : JVal),
      lookupKey st.raw k = some v → (∀ p ∈ r2, p.1 ≠ k) →
      lookupKey (r2.foldl mungeStep st).raw k = some v := by
  induction r2 with
  | nil =>
    intro st k v h _
    exact h
  | cons p rest ih =>
    intro st k v h hall
    rw [List.foldl_cons]
    refine ih _ k v ?_ (fun q hq => hall q (List.mem_cons_of_mem p hq))
    rcases mungeStep_raw_cases st p with he | he
    · rw [he]
      exact h
    · rw [he, objSet_lookup_ne _ _ _ _ (hall p (List.mem_cons_self p rest))]
      exact h

theorem foldl_mungeStep_cbs (r2 : List (String × JVal)) :
    ∀ (st : MungeState) (sfx : String) (v : JVal),
      lookupKey st.cbs sfx = some v →
      (∀ p ∈ r2, strStarts p.1 "cbs$" = true → strDrop p.1 4 ≠ sfx) →
      lookupKey (r2.foldl mungeStep st).cbs sfx = some v := by
  induction r2 with
  | nil =>
    intro st sfx v h _
    exact h
  | cons p rest ih =>
    intro st sfx v h hall
    rw [List.foldl_cons]
    refine ih _ sfx v ?_ (fun q hq hs => hall q (List.mem_cons_of_mem p hq) hs)
    rcases mungeStep_cbs_cases st p with he | ⟨hs, he⟩
    · rw [he]
      exact h
    · rw [he, objSet_lookup_ne _ _ _ _ (hall p (List.mem_cons_self p rest) hs)]
      exact h

theorem foldl_mungeStep_ytcp (r2 : List (String × JVal)) :
    ∀ (st : MungeState) (sfx : String) (v : JVal),
      lookupKey st.ytcp sfx = some v →
      (∀ p ∈ r2, strStarts p.1 "ytcp$" = true → strDrop p.1 5 ≠ sfx) →
      lookupKey (r2.foldl mungeStep st).ytcp sfx = some v := by
  induction r2 with
  | nil =>
    intro st sfx v h _
    exact h
  | cons p rest ih =>
    intro st sfx v h hall
    rw [List.foldl_cons]
    refine ih _ sfx v ?_ (fun q hq hs => hall q (List.mem_cons_of_mem p hq) hs)
    rcases mungeStep_ytcp_cases st p with he | ⟨hs, he⟩
    · rw [he]
      exact h
    · rw [he, objSet_lookup_ne _ _ _ _ (hall p (List.mem_cons_self p rest) hs)]
      exact h

theorem foldl_mungeStep_yt (r2 : List (String × JVal)) :
    ∀ (st : MungeState) (sfx : String) (v : JVal),
      lookupKey st.yt sfx = some v →
      (∀ p ∈ r2, strStarts p.1 "yt$" = true → strDrop p.1 3 ≠ sfx) →
      lookupKey (r2.foldl mungeStep st).yt sfx = some v := by
  induction r2 with
  | nil =>
    intro st sfx v h _
    exact h
  | cons p rest ih =>
    intro st sfx v h hall
    rw [List.foldl_cons]
    refine ih _ sfx v ?_ (fun q hq hs => hall q (List.mem_cons_of_mem p hq) hs)
    rcases mungeStep_yt_cases st p with he | ⟨hs, he⟩
    · rw [he]
      exact h
    · rw [he, objSet_lookup_ne _ _ _ _ (hall p (List.mem_cons_self p rest) hs)]
      exact h

theorem foldl_mungeStep_msn (r2 : List (String × JVal)) :
    ∀ (st : MungeState) (sfx : String) (v : JVal),
      lookupKey st.msn sfx = some v →
      (∀ p ∈ r2, strStarts p.1 "msn$" = true → strDrop p.1 4 ≠ sfx) →
      lookupKey (r2.foldl mungeStep st).msn sfx = some v := by
  induction r2 with
  | nil =>
    intro st sfx v h _
    exact h
  | cons p rest ih =>
    intro st sfx v h hall
    rw [List.foldl_cons]
    refine ih _ sfx v ?_ (fun q hq hs => hall q (List.mem_cons_of_mem p hq) hs)
    rcases mungeStep_msn_cases st p with he | ⟨hs, he⟩
    · rw [he]
      exact h
    · rw [he, objSet_lookup_ne _ _ _ _ (hall p (List.mem_cons_self p rest) hs)]
      exact h

theorem foldl_mungeStep_pl2 (r2 : List (String × JVal)) :
    ∀ (st : MungeState) (sfx : String) (v : JVal),
      lookupKey st.pl2 sfx = some v →
      (∀ p ∈ r2, strStarts p.1 "pl2$" = true → strDrop p.1 4 ≠ sfx) →
      lookupKey (r2.foldl mungeStep st).pl2 sfx = some v := by
  induction r2 with
  | nil =>
    intro st sfx v h _
    exact h
  | cons p rest ih =>
    intro st sfx v h hall
    rw [List.foldl_cons]
    refine ih _ sfx v ?_ (fun q hq hs => hall q (List.mem_cons_of_mem p hq) hs)
    rcases mungeStep_pl2_cases st p with he | ⟨hs, he⟩
    · rw [he]
      exact h
    · rw [he, objSet_lookup_ne _ _ _ _ (hall p (List.mem_cons_self p rest) hs)]
      exact h

end MediaVault



namespace MediaVault

/-! ## Computing one classification step under known key shape -/

theorem mungeStep_plain (st : MungeState) (k : String) (v : JVal)
    (h1 : strStarts k "content[" = false) (h2 : strStarts k "thumbnails[" = false)
    (h3 : strStarts k "cbs$" = false) (h4 : strStarts k "ytcp$" = false)
    (h5 : strStarts k "yt$" = false) (h6 : strStarts k "msn$" = false)
    (h7 : strStarts k "pl2$" = false) :
    mungeStep st (k, v) = { st with raw := objSet st.raw k v } := by
  simp [mungeStep, h1, h2, h3, h4, h5, h6, h7]

theorem mungeStep_ns_cbs (st : MungeState) (k : String) (v : JVal)
    (h1 : strStarts k "content[" = false)
    (h2 : strStarts k "thumbnails[" = false)
    (hp : strStarts k "cbs$" = true) :
    mungeStep st (k, v) = { st with cbs := objSet st.cbs (strDrop k 4) v } := by
  simp [mungeStep, h1, h2, hp]

theorem mungeStep_ns_ytcp (st : MungeState) (k : String) (v : JVal)
    (h1 : strStarts k "content[" = false)
    (h2 : strStarts k "thumbnails[" = false)
    (h3 : strStarts k "cbs$" = false)
    (hp : strStarts k "ytcp$" = true) :
    mungeStep st (k, v) = { st with ytcp := objSet st.ytcp (strDrop k 5) v } := by
  simp [mungeStep, h1, h2, h3, hp]

theorem mungeStep_ns_yt (st : MungeState) (k : String) (v : JVal)
    (h1 : strStarts k "content[" = false)
    (h2 : strStarts k "thumbnails[" = false)
    (h3 : strStarts k "cbs$" = false)
    (h4 : strStarts k "ytcp$" = false)
    (hp : strStarts k "yt$" = true) :
    mungeStep st (k, v) = { st with yt := objSet st.yt (strDrop k 3) v } := by
  simp [mungeStep, h1, h2, h3, h4, hp]

theorem mungeStep_ns_msn (st : MungeState) (k : String) (v : JVal)
    (h1 : strStarts k "content[" = false)
    (h2 : strStarts k "thumbnails[" = false)
    (h3 : strStarts k "cbs$" = false)
    (h4 : strStarts k "ytcp$" = false)
    (h5 : strStarts k "yt$" = false)
    (hp : strStarts k "msn$" = true) :
    mungeStep st (k, v) = { st with msn := objSet st.msn (strDrop k 4) v } := by
  simp [mungeStep, h1, h2, h3, h4, h5, hp]

theorem mungeStep_ns_pl2 (st : MungeState) (k : String) (v : JVal)
    (h1 : strStarts k "content[" = false)
    (h2 : strStarts k "thumbnails[" = false)
    (h3 : strStarts k "cbs$" = false)
    (h4 : strStarts k "ytcp$" = false)
    (h5 : strStarts k "yt$" = false)
    (h6 : strStarts k "msn$" = false)
    (hp : strStarts k "pl2$" = true) :
    mungeStep st (k, v) = { st with pl2 := objSet st.pl2 (strDrop k 4) v } := by
  simp [mungeStep, h1, h2, h3, h4, h5, h6, hp]

/-! ## Lookups through the residual finalization -/

theorem lookup_condSet_ne (c : Prop) [Decidable c] (raw : Record)
    (name : String) (val : JVal) (k : String) (h : name ≠ k) :
    lookupKey (if c then raw else objSet raw name val) k = lookupKey raw k := by
  split
  · rfl
  · exact objSet_lookup_ne raw name val k h

theorem passThroughArr_lookup_ne (raw r : Record) (name k : String)
    (h : name ≠ k) :
    lookupKey (passThroughArr raw r name) k = lookupKey raw k := by
  simp only [passThroughArr]
  split
  · cases lookupKey r name with
    | none => rfl
    | some w =>
      cases w with
      | arr xs => exact objSet_lookup_ne raw name _ k h
      | null => rfl
      | bool b => rfl
      | num n => rfl
      | str s => rfl
      | obj fs => rfl
  · rfl

theorem passThroughObj_lookup_ne (raw r : Record) (name k : String)
    (h : name ≠ k) :
    lookupKey (passThroughObj raw r name) k = lookupKey raw k := by
  simp only [passThroughObj]
  split
  · cases lookupKey r name with
    | none => rfl
    | some w =>
      show lookupKey (if (truthy w && isObjLike w) = true
        then objSet raw name w else raw) k = lookupKey raw k
      by_cases ht : (truthy w && isObjLike w) = true
      · rw [if_pos ht]
        exact objSet_lookup_ne raw name _ k h
      · rw [if_neg ht]
  · rfl

theorem passThroughObj_keep (raw r : Record) (name : String) (w : JVal)
    (hl : lookupKey raw name = some w) (ht : truthy w = true) :
    passThroughObj raw r name = raw := by
  simp [passThroughObj, hl, ht]

theorem passThroughObj_lookup_of_obj (raw r : Record) (name : String)
    (fs : Record) (hl : lookupKey raw name = some (JVal.obj fs)) :
    lookupKey (passThroughObj raw r name) name = some (JVal.obj fs) := by
  rw [passThroughObj_keep raw r name (JVal.obj fs) hl rfl]
  exact hl

theorem mungeFinalize_lookup_plain (r : Record) (st : MungeState) (k : String)
    (h1 : "content" ≠ k) (h2 : "thumbnails" ≠ k) (h3 : "cbs" ≠ k)
    (h4 : "ytcp" ≠ k) (h5 : "yt" ≠ k) (h6 : "msn" ≠ k) (h7 : "pl2" ≠ k) :
    lookupKey (mungeFinalize r st) k = lookupKey st.raw k := by
  simp only [mungeFinalize]
  rw [passThroughObj_lookup_ne _ _ _ _ h7, passThroughObj_lookup_ne _ _ _ _ h6,
    passThroughObj_lookup_ne _ _ _ _ h5, passThroughObj_lookup_ne _ _ _ _ h4,
    passThroughObj_lookup_ne _ _ _ _ h3, passThroughArr_lookup_ne _ _ _ _ h2,
    passThroughArr_lookup_ne _ _ _ _ h1, lookup_condSet_ne _ _ _ _ _ h7,
    lookup_condSet_ne _ _ _ _ _ h6, lookup_condSet_ne _ _ _ _ _ h5,
    lookup_condSet_ne _ _ _ _ _ h4, lookup_condSet_ne _ _ _ _ _ h3,
    lookup_condSet_ne _ _ _ _ _ h2, lookup_condSet_ne _ _ _ _ _ h1]

theorem mungeFinalize_lookup_cbs (r : Record) (st : MungeState)
    (hne : st.cbs.isEmpty = false) :
    lookupKey (mungeFinalize r st) "cbs" = some (JVal.obj st.cbs) := by
  simp only [mungeFinalize]
  rw [passThroughObj_lookup_ne _ _ _ _ (by decide : "pl2" ≠ "cbs"),
    passThroughObj_lookup_ne _ _ _ _ (by decide : "msn" ≠ "cbs"),
    passThroughObj_lookup_ne _ _ _ _ (by decide : "yt" ≠ "cbs"),
    passThroughObj_lookup_ne _ _ _ _ (by decide : "ytcp" ≠ "cbs")]
  apply passThroughObj_lookup_of_obj
  rw [passThroughArr_lookup_ne _ _ _ _ (by decide : "thumbnails" ≠ "cbs"),
    passThroughArr_lookup_ne _ _ _ _ (by decide : "content" ≠ "cbs"),
    lookup_condSet_ne _ _ _ _ _ (by decide : "pl2" ≠ "cbs"),
    lookup_condSet_ne _ _ _ _ _ (by decide : "msn" ≠ "cbs"),
    lookup_condSet_ne _ _ _ _ _ (by decide : "yt" ≠ "cbs"),
    lookup_condSet_ne _ _ _ _ _ (by decide : "ytcp" ≠ "cbs")]
  rw [if_neg (by simp [hne])]
  exact objSet_lookup_self _ _ _

theorem mungeFinalize_lookup_ytcp (r : Record) (st : MungeState)
    (hne : st.ytcp.isEmpty = false) :
    lookupKey (mungeFinalize r st) "ytcp" = some (JVal.obj st.ytcp) := by
  simp only [mungeFinalize]
  rw [passThroughObj_lookup_ne _ _ _ _ (by decide : "pl2" ≠ "ytcp"),
    passThroughObj_lookup_ne _ _ _ _ (by decide : "msn" ≠ "ytcp"),
    passThroughObj_lookup_ne _ _ _ _ (by decide : "yt" ≠ "ytcp")]
  apply passThroughObj_lookup_of_obj
  rw [passThroughObj_lookup_ne _ _ _ _ (by decide : "cbs" ≠ "ytcp"),
    passThroughArr_lookup_ne _ _ _ _ (by decide : "thumbnails" ≠ "ytcp"),
    passThroughArr_lookup_ne _ _ _ _ (by decide : "content" ≠ "ytcp"),
    lookup_condSet_ne _ _ _ _ _ (by decide : "pl2" ≠ "ytcp"),
    lookup_condSet_ne _ _ _ _ _ (by decide : "msn" ≠ "ytcp"),
    lookup_condSet_ne _ _ _ _ _ (by decide : "yt" ≠ "ytcp")]
  rw [if_neg (by simp [hne])]
  exact objSet_lookup_self _ _ _

theorem mungeFinalize_lookup_yt (r : Record) (st : MungeState)
    (hne : st.yt.isEmpty = false) :
    lookupKey (mungeFinalize r st) "yt" = some (JVal.obj st.yt) := by
  simp only [mungeFinalize]
  rw [passThroughObj_lookup_ne _ _ _ _ (by decide : "pl2" ≠ "yt"),
    passThroughObj_lookup_ne _ _ _ _ (by decide : "msn" ≠ "yt")]
  apply passThroughObj_lookup_of_obj
  rw [passThroughObj_lookup_ne _ _ _ _ (by decide : "ytcp" ≠ "yt"),
    passThroughObj_lookup_ne _ _ _ _ (by decide : "cbs" ≠ "yt"),
    passThroughArr_lookup_ne _ _ _ _ (by decide : "thumbnails" ≠ "yt"),
    passThroughArr_lookup_ne _ _ _ _ (by decide : "content" ≠ "yt"),
    lookup_condSet_ne _ _ _ _ _ (by decide : "pl2" ≠ "yt"),
    lookup_condSet_ne _ _ _ _ _ (by decide : "msn" ≠ "yt")]
  rw [if_neg (by simp [hne])]
  exact objSet_lookup_self _ _ _

theorem mungeFinalize_lookup_msn (r : Record) (st : MungeState)
    (hne : st.msn.isEmpty = false) :
    lookupKey (mungeFinalize r st) "msn" = some (JVal.obj st.msn) := by
  simp only [mungeFinalize]
  rw [passThroughObj_lookup_ne _ _ _ _ (by decide : "pl2" ≠ "msn")]
  apply passThroughObj_lookup_of_obj
  rw [passThroughObj_lookup_ne _ _ _ _ (by decide : "yt" ≠ "msn"),
    passThroughObj_lookup_ne _ _ _ _ (by decide : "ytcp" ≠ "msn"),
    passThroughObj_lookup_ne _ _ _ _ (by decide : "cbs" ≠ "msn"),
    passThroughArr_lookup_ne _ _ _ _ (by decide : "thumbnails" ≠ "msn"),
    passThroughArr_lookup_ne _ _ _ _ (by decide : "content" ≠ "msn"),
    lookup_condSet_ne _ _ _ _ _ (by decide : "pl2" ≠ "msn")]
  rw [if_neg (by simp [hne])]
  exact objSet_lookup_self _ _ _

theorem mungeFinalize_lookup_pl2 (r : Record) (st : MungeState)
    (hne : st.pl2.isEmpty = false) :
    lookupKey (mungeFinalize r st) "pl2" = some (JVal.obj st.pl2) := by
  simp only [mungeFinalize]
  apply passThroughObj_lookup_of_obj
  rw [passThroughObj_lookup_ne _ _ _ _ (by decide : "msn" ≠ "pl2"),
    passThroughObj_lookup_ne _ _ _ _ (by decide : "yt" ≠ "pl2"),
    passThroughObj_lookup_ne _ _ _ _ (by decide : "ytcp" ≠ "pl2"),
    passThroughObj_lookup_ne _ _ _ _ (by decide : "cbs" ≠ "pl2"),
    passThroughArr_lookup_ne _ _ _ _ (by decide : "thumbnails" ≠ "pl2"),
    passThroughArr_lookup_ne _ _ _ _ (by decide : "content" ≠ "pl2")]
  rw [if_neg (by simp [hne])]
  exact objSet_lookup_self _ _ _

end MediaVault

namespace MediaVault

theorem bool_eq_false {b : Bool} (h : ¬ b = true) : b = false := by
  cases b
  · rfl
  · exact absurd rfl h

/-- C7 (amended): the residual document loses nothing except keys that
begin with `content[` or `thumbnails[` without matching the full indexed
path pattern, and plain keys shadowed by the seven reserved residual
names — every vendor-namespaced key and every other plain key of an input
record (with JS-object distinct keys) survives in the residual document
under some path. -/
theorem c7_residual_survival_amended (r : Record)
    (hnd : (r.map Prod.fst).Nodup) (k : String) (v : JVal)
    (hmem : (k, v) ∈ r)
    (hc : strStarts k "content[" = false)
    (ht : strStarts k "thumbnails[" = false)
    (hres : k ∉ (["content", "thumbnails", "cbs", "ytcp", "yt", "msn",
      "pl2"] : List String)) :
    survives (mungeRaw r) v := by
  obtain ⟨r1, r2, rfl⟩ := List.append_of_mem hmem
  have hkeys : ∀ p ∈ r2, p.1 ≠ k := by
    have h1 : ((r1 ++ (k, v) :: r2).map Prod.fst).Nodup := hnd
    rw [List.map_append, List.map_cons] at h1
    have h2 := h1.of_append_right
    have h3 : k ∉ r2.map Prod.fst := (List.nodup_cons.1 h2).1
    intro p hp he
    exact h3 (he ▸ List.mem_map_of_mem Prod.fst hp)
  have hfold : (r1 ++ (k, v) :: r2).foldl mungeStep mungeInit
      = r2.foldl mungeStep (mungeStep (r1.foldl mungeStep mungeInit) (k, v)) := by
    rw [List.foldl_append, List.foldl_cons]
  unfold mungeRaw
  rw [hfold]
  by_cases hcbs : strStarts k "cbs$" = true
  · rw [mungeStep_ns_cbs _ k v hc ht hcbs]
    have hlook : lookupKey ((r2.foldl mungeStep
        { r1.foldl mungeStep mungeInit with
          cbs := objSet (r1.foldl mungeStep mungeInit).cbs (strDrop k 4) v })).cbs
        (strDrop k 4) = some v := by
      apply foldl_mungeStep_cbs
      · exact objSet_lookup_self _ _ _
      · intro p hp hps heq
        exact hkeys p hp (strStarts_drop_inj "cbs$" p.1 k 4 rfl hps hcbs heq)
    exact survives_of_lookup_bucket
      (mungeFinalize_lookup_cbs _ _ (lookup_some_not_empty hlook)) hlook
  · 

    by_cases hytcp : strStarts k "ytcp$" = true
    · rw [mungeStep_ns_ytcp _ k v hc ht (bool_eq_false hcbs) hytcp]
      have hlook : lookupKey ((r2.foldl mungeStep
          { r1.foldl mungeStep mungeInit with
            ytcp := objSet (r1.foldl mungeStep mungeInit).ytcp (strDrop k 5) v })).ytcp
          (strDrop k 5) = some v := by
        apply foldl_mungeStep_ytcp
        · exact objSet_lookup_self _ _ _
        · intro p hp hps heq
          exact hkeys p hp (strStarts_drop_inj "ytcp$" p.1 k 5 rfl hps hytcp heq)
      exact survives_of_lookup_bucket
        (mungeFinalize_lookup_ytcp _ _ (lookup_some_not_empty hlook)) hlook
    · 

      by_cases hyt : strStarts k "yt$" = true
      · rw [mungeStep_ns_yt _ k v hc ht (bool_eq_false hcbs) (bool_eq_false hytcp) hyt]
        have hlook : lookupKey ((r2.foldl mungeStep
            { r1.foldl mungeStep mungeInit with
              yt := objSet (r1.foldl mungeStep mungeInit).yt (strDrop k 3) v })).yt
            (strDrop k 3) = some v := by
          apply foldl_mungeStep_yt
          · exact objSet_lookup_self _ _ _
          · intro p hp hps heq
            exact hkeys p hp (strStarts_drop_inj "yt$" p.1 k 3 rfl hps hyt heq)
        exact survives_of_lookup_bucket
          (mungeFinalize_lookup_yt _ _ (lookup_some_not_empty hlook)) hlook
      · 

        by_cases hmsn : strStarts k "msn$" = true
        · rw [mungeStep_ns_msn _ k v hc ht (bool_eq_false hcbs) (bool_eq_false hytcp) (bool_eq_false hyt) hmsn]
          have hlook : lookupKey ((r2.foldl mungeStep
              { r1.foldl mungeStep mungeInit with
                msn := objSet (r1.foldl mungeStep mungeInit).msn (strDrop k 4) v })).msn
              (strDrop k 4) = some v := by
            apply foldl_mungeStep_msn
            · exact objSet_lookup_self _ _ _
            · intro p hp hps heq
              exact hkeys p hp (strStarts_drop_inj "msn$" p.1 k 4 rfl hps hmsn heq)
          exact survives_of_lookup_bucket
            (mungeFinalize_lookup_msn _ _ (lookup_some_not_empty hlook)) hlook
        · 

          by_cases hpl2 : strStarts k "pl2$" = true
          · rw [mungeStep_ns_pl2 _ k v hc ht (bool_eq_false hcbs) (bool_eq_false hytcp) (bool_eq_false hyt) (bool_eq_false hmsn) hpl2]
            have hlook : lookupKey ((r2.foldl mungeStep
                { r1.foldl mungeStep mungeInit with
                  pl2 := objSet (r1.foldl mungeStep mungeInit).pl2 (strDrop k 4) v })).pl2
                (strDrop k 4) = some v := by
              apply foldl_mungeStep_pl2
              · exact objSet_lookup_self _ _ _
              · intro p hp hps heq
                exact hkeys p hp (strStarts_drop_inj "pl2$" p.1 k 4 rfl hps hpl2 heq)
            exact survives_of_lookup_bucket
              (mungeFinalize_lookup_pl2 _ _ (lookup_some_not_empty hlook)) hlook
          · 
            rw [mungeStep_plain _ k v hc ht (bool_eq_false hcbs) (bool_eq_false hytcp) (bool_eq_false hyt) (bool_eq_false hmsn) (bool_eq_false hpl2)]
            have hlook : lookupKey ((r2.foldl mungeStep
                { r1.foldl mungeStep mungeInit with
                  raw := objSet (r1.foldl mungeStep mungeInit).raw k v })).raw k = some v := by
              apply foldl_mungeStep_raw
              · exact objSet_lookup_self _ _ _
              · exact hkeys
            have hne_content : "content" ≠ k := by
              intro he
              exact hres (by rw [← he]; simp)
            have hne_thumbnails : "thumbnails" ≠ k := by
              intro he
              exact hres (by rw [← he]; simp)
            have hne_cbs : "cbs" ≠ k := by
              intro he
              exact hres (by rw [← he]; simp)
            have hne_ytcp : "ytcp" ≠ k := by
              intro he
              exact hres (by rw [← he]; simp)
            have hne_yt : "yt" ≠ k := by
              intro he
              exact hres (by rw [← he]; simp)
            have hne_msn : "msn" ≠ k := by
              intro he
              exact hres (by rw [← he]; simp)
            have hne_pl2 : "pl2" ≠ k := by
              intro he
              exact hres (by rw [← he]; simp)
            apply survives_of_lookup
            rw [mungeFinalize_lookup_plain _ _ _ hne_content hne_thumbnails hne_cbs
              hne_ytcp hne_yt hne_msn hne_pl2]
            exact hlook

end MediaVault

namespace MediaVault

theorem c7_residual_survival_amended_witness :
    (([("cbs$SeriesTitle", JVal.str "B"), ("extra_field", JVal.str "P")]
        : Record).map Prod.fst).Nodup
    ∧ strStarts "cbs$SeriesTitle" "content[" = false
    ∧ strStarts "cbs$SeriesTitle" "thumbnails[" = false
    ∧ "cbs$SeriesTitle" ∉ (["content", "thumbnails", "cbs", "ytcp", "yt",
        "msn", "pl2"] : List String)
    ∧ survives (mungeRaw [("cbs$SeriesTitle", JVal.str "B"),
        ("extra_field", JVal.str "P")]) (JVal.str "B") := by
  refine ⟨by decide, by decide, by decide, by decide, ?_⟩
  exact c7_residual_survival_amended
    [("cbs$SeriesTitle", JVal.str "B"), ("extra_field", JVal.str "P")]
    (by decide) "cbs$SeriesTitle" (JVal.str "B")
    (List.mem_cons_self _ _) (by decide) (by decide) (by decide)

end MediaVault
